import Mathlib

/-!
Verification development for the gitsquash core (squash orchestration,
selection classifier, fast-path squasher, general-path reconstructor,
working-tree guard).  The source operates on a git repository through a
gateway (`simple-git`); we embed the repository as an explicit state and
each gateway call as a state transformer that can fail, recording a trace
of issued operations.  Commit identities are naturals, changesets are
lists of atomic change ids (a commit created by `cherry-pick` receives a
fresh identity but carries the source commit's changeset and message, as
git does), and branches are lists of commits, most recent first.
-/

/-- A commit record: content-addressed identity, abstract changeset
(list of atomic change ids, chronological), and message (modelled as its
first line). -/
structure Commit where
  hash : Nat
  change : List Nat
  message : String
deriving DecidableEq, Repr

/-- Operations issued to the repository gateway. -/
inductive GOp where
  | logRead (maxCount : Option Nat)
  | statusRead
  | branchQuery
  | stashSave
  | stashPop
  | softReset (base : Nat)
  | hardReset (base : Nat)
  | commitOp (msg : String)
  | checkoutBranch (name : String)
  | createBranch (name : String)
  | deleteBranch (name : String)
  | cherryPick (h : Nat)
  | revparse
deriving DecidableEq, Repr

/-- Whether a gateway operation mutates repository state (branch refs,
index, working tree or stash), as opposed to a pure read. -/
def GOp.isMutating : GOp → Bool
  | .logRead _ => false
  | .statusRead => false
  | .branchQuery => false
  | .revparse => false
  | _ => true

/-- Errors surfaced by the gateway. `injected` is an environment-chosen
failure (e.g. a cherry-pick conflict); the rest are semantic failures of
the abstract repository. -/
inductive GitErr where
  | injected (op : GOp)
  | badRevision (h : Nat)
  | noBranch (name : String)
  | branchExists (name : String)
  | deleteCurrent (name : String)
  | emptyStash
  | nothingToCommit
  | emptyHead
deriving DecidableEq, Repr

/-- The failure environment: which gateway operations fail when issued
(abstracting conflicts and backend failures). -/
structure Env where
  failOn : GOp → Bool

/-- Repository state: branch refs (name, commits newest first), the
checked-out branch, the object store of all commits ever created, the
parent map, the uncommitted-file count, the stash stack, the staged
changeset, a fresh-hash counter, the clock (for the temp branch name),
and the trace of issued operations (with the branch current at issue
time). -/
structure St where
  branches : List (String × List Commit)
  current : String
  objects : List Commit
  parents : List (Nat × Option Nat)
  dirty : Nat
  stashSt : List Nat
  staged : List Nat
  nextHash : Nat
  now : Nat
  trace : List (String × GOp)
deriving DecidableEq, Repr

def branchNames (s : St) : List String := s.branches.map (·.1)

def getBranch (s : St) (b : String) : List Commit := (List.lookup b s.branches).getD []

def setBranch (s : St) (b : String) (L : List Commit) : St :=
  { s with branches := s.branches.map (fun p => if p.1 = b then (b, L) else p) }

def curBranch (s : St) : List Commit := getBranch s s.current

/-- Record an issued operation in the trace. -/
def issue (s : St) (op : GOp) : St := { s with trace := s.trace ++ [(s.current, op)] }

def lookupObj (s : St) (h : Nat) : Option Commit := s.objects.find? (fun c => c.hash == h)

/-- Result of running an effectful fragment: success or failure, each
carrying the state reached. -/
abbrev GRes (α : Type) := Except (GitErr × St) (α × St)

def bindR {α β : Type} (x : GRes α) (f : α → St → GRes β) : GRes β :=
  match x with
  | .error e => .error e
  | .ok (a, s) => f a s

@[simp] theorem bindR_error {α β : Type} (e : GitErr × St) (f : α → St → GRes β) :
    bindR (.error e) f = .error e := rfl

@[simp] theorem bindR_ok {α β : Type} (a : α) (s : St) (f : α → St → GRes β) :
    bindR (.ok (a, s)) f = f a s := rfl

/-- The state carried by a result (success or failure). -/
def stOf {α : Type} : GRes α → St
  | .ok (_, s) => s
  | .error (_, s) => s

/-- Issue an operation, then fail if the environment injects a failure,
otherwise continue. -/
def gwGuard {α : Type} (env : Env) (op : GOp) (s : St) (k : St → GRes α) : GRes α :=
  let s1 := issue s op
  if env.failOn op then .error (.injected op, s1) else k s1

/-- `git.status()`: report the uncommitted-file count. -/
def doStatus (env : Env) (s : St) : GRes Nat :=
  gwGuard env .statusRead s (fun s1 => .ok (s1.dirty, s1))

/-- `git.log({maxCount})` (or a full `git.log()`): the current branch's
commits, newest first. -/
def doLog (env : Env) (mc : Option Nat) (s : St) : GRes (List Commit) :=
  gwGuard env (.logRead mc) s (fun s1 =>
    match mc with
    | none => .ok (curBranch s1, s1)
    | some n => .ok ((curBranch s1).take n, s1))

/-- `git.branch()` (read): the current branch name. -/
def doBranchQuery (env : Env) (s : St) : GRes String :=
  gwGuard env .branchQuery s (fun s1 => .ok (s1.current, s1))

/-- `git.stash(['save', label])`. -/
def doStashSave (env : Env) (s : St) : GRes Unit :=
  gwGuard env .stashSave s (fun s1 =>
    .ok ((), { s1 with stashSt := s1.dirty :: s1.stashSt, dirty := 0 }))

/-- `git.stash(['pop'])`. -/
def doStashPop (env : Env) (s : St) : GRes Unit :=
  gwGuard env .stashPop s (fun s1 =>
    match s1.stashSt with
    | [] => .error (.emptyStash, s1)
    | n :: rest => .ok ((), { s1 with stashSt := rest, dirty := s1.dirty + n }))

/-- `git.checkout([name])`. -/
def doCheckout (env : Env) (b : String) (s : St) : GRes Unit :=
  gwGuard env (.checkoutBranch b) s (fun s1 =>
    if b ∈ branchNames s1 then .ok ((), { s1 with current := b })
    else .error (.noBranch b, s1))

/-- `git.checkout(['-b', name])`: create a branch at the current tip and
switch to it. -/
def doCheckoutNew (env : Env) (b : String) (s : St) : GRes Unit :=
  gwGuard env (.createBranch b) s (fun s1 =>
    if b ∈ branchNames s1 then .error (.branchExists b, s1)
    else .ok ((), { s1 with branches := (b, curBranch s1) :: s1.branches, current := b }))

/-- `git.branch(['-D', name])`. -/
def doDeleteBranch (env : Env) (b : String) (s : St) : GRes Unit :=
  gwGuard env (.deleteBranch b) s (fun s1 =>
    if b = s1.current then .error (.deleteCurrent b, s1)
    else if b ∈ branchNames s1 then
      .ok ((), { s1 with branches := s1.branches.filter (fun p => p.1 != b) })
    else .error (.noBranch b, s1))

/-- Append a freshly hashed commit with the given changeset and message
onto the current branch, recording it in the object store and parent
map. -/
def newCommitOn (s : St) (change : List Nat) (msg : String) : St :=
  let L := curBranch s
  let nc : Commit := ⟨s.nextHash, change, msg⟩
  let s' := setBranch s s.current (nc :: L)
  { s' with objects := nc :: s'.objects,
            parents := (nc.hash, L.head?.map (·.hash)) :: s'.parents,
            nextHash := s'.nextHash + 1 }

/-- `git cherry-pick h`: replay the changeset of commit `h` onto the
current tip as a new commit (fresh identity, same changeset and
message). -/
def doCherryPick (env : Env) (h : Nat) (s : St) : GRes Unit :=
  gwGuard env (.cherryPick h) s (fun s1 =>
    match lookupObj s1 h with
    | none => .error (.badRevision h, s1)
    | some c => .ok ((), newCommitOn s1 c.change c.message))

/-- `git.reset(['--soft'|'--hard', base~1])`: resolve the parent of
`base`, move the current branch tip there.  A soft reset stages the
changesets of the dropped commits (chronologically); a hard reset
discards index and working-tree differences. -/
def doReset (env : Env) (hard : Bool) (base : Nat) (s : St) : GRes Unit :=
  gwGuard env (if hard then .hardReset base else .softReset base) s (fun s1 =>
    match List.lookup base s1.parents with
    | none => .error (.badRevision base, s1)
    | some none => .error (.badRevision base, s1)
    | some (some p) =>
      let L := curBranch s1
      let kept := L.dropWhile (fun c => c.hash != p)
      if kept.isEmpty then .error (.badRevision base, s1)
      else
        let dropped := L.takeWhile (fun c => c.hash != p)
        let s2 := setBranch s1 s1.current kept
        if hard then .ok ((), { s2 with staged := [], dirty := 0 })
        else .ok ((), { s2 with staged := s2.staged ++ dropped.reverse.flatMap (·.change) }))

/-- `git.commit(message)`: commit the staged changeset. -/
def doCommit (env : Env) (msg : String) (s : St) : GRes Unit :=
  gwGuard env (.commitOp msg) s (fun s1 =>
    match s1.staged with
    | [] => .error (.nothingToCommit, s1)
    | st => .ok ((), { newCommitOn s1 st msg with staged := [] }))

/-- `git.revparse(['HEAD'])`. -/
def doRevparse (env : Env) (s : St) : GRes Nat :=
  gwGuard env .revparse s (fun s1 =>
    match (curBranch s1).head? with
    | none => .error (.emptyHead, s1)
    | some c => .ok (c.hash, s1))

/-- `squashLatestCommits` (fast path): soft-reset to the parent of the
oldest selected commit, then commit the staged changes. -/
def squashLatestCommits (env : Env) (commits : List Nat) (msg : String) (s : St) : GRes Unit :=
  let oldestCommit := (commits.getLast?).getD 0
  bindR (doReset env false oldestCommit s) fun _ s1 =>
  doCommit env msg s1

/-- The temporary branch name, `temp-squash-${Date.now()}`. -/
def tempName (s : St) : String := "temp-squash-" ++ toString s.now

/-- Cherry-pick each listed commit in order onto the current tip. -/
def cherryPickAll (env : Env) : List Nat → St → GRes Unit
  | [], s => .ok ((), s)
  | h :: t, s => bindR (doCherryPick env h s) fun _ s1 => cherryPickAll env t s1

/-- General path, reconstruction on the temporary branch (Phase 3):
hard-reset to the parent of the oldest selected commit, cherry-pick the
selected commits in reversed (oldest-to-newest) order, soft-reset back
to the same parent, create the squashed commit, and read its hash. -/
def gpReconstruct (env : Env) (commits : List Nat) (msg : String) (s : St) : GRes Nat :=
  let oldestCommit := (commits.getLast?).getD 0
  bindR (doReset env true oldestCommit s) fun _ s1 =>
  bindR (cherryPickAll env commits.reverse s1) fun _ s2 =>
  bindR (doReset env false oldestCommit s2) fun _ s3 =>
  bindR (doCommit env msg s3) fun _ s4 =>
  doRevparse env s4

/-- General path, transplant onto the original branch (Phases 4-5):
check out the original branch, hard-reset it to the parent of the oldest
selected commit, cherry-pick the squashed commit, cherry-pick the later
commits in reversed (oldest-to-newest) order, and delete the temporary
branch. -/
def gpTransplant (env : Env) (currentBranch tempBranch : String)
    (oldestCommit newCommit : Nat) (laterCommits : List (Nat × String)) (s : St) : GRes Unit :=
  bindR (doCheckout env currentBranch s) fun _ s1 =>
  bindR (doReset env true oldestCommit s1) fun _ s2 =>
  bindR (doCherryPick env newCommit s2) fun _ s3 =>
  bindR (cherryPickAll env (laterCommits.reverse.map (·.1)) s3) fun _ s4 =>
  doDeleteBranch env tempBranch s4

/-- The catch handler of the general path: check out the original branch
(unguarded: its own failure propagates), force-delete the temporary
branch with errors suppressed, and re-raise the original error. -/
def gpCatch (env : Env) (currentBranch tempBranch : String) (e : GitErr) (s : St) : GRes Unit :=
  match doCheckout env currentBranch s with
  | .error e2 => .error e2
  | .ok (_, s1) =>
    match doDeleteBranch env tempBranch s1 with
    | .error (_, s2) => .error (e, s2)
    | .ok (_, s2) => .error (e, s2)

/-- `squashNonConsecutiveCommits`: read the current branch name, compute
the commits strictly newer than the newest selected commit from a full
log, create and switch to the temporary branch, then run reconstruction
and transplant under the catch handler. -/
def squashNonConsecutiveCommits (env : Env) (commits : List Nat) (msg : String) (s : St) : GRes Unit :=
  bindR (doBranchQuery env s) fun currentBranch s1 =>
  let tempBranch := tempName s1
  bindR (doLog env none s1) fun logAll s2 =>
  let newestSelectedCommit := commits.headD 0
  let laterCommits := (logAll.takeWhile (fun c => c.hash != newestSelectedCommit)).map
    (fun c => (c.hash, c.message))
  bindR (doCheckoutNew env tempBranch s2) fun _ s3 =>
  match (bindR (gpReconstruct env commits msg s3) fun newCommit s4 =>
      gpTransplant env currentBranch tempBranch ((commits.getLast?).getD 0) newCommit
        laterCommits s4) with
  | .ok r => .ok r
  | .error (e, sE) => gpCatch env currentBranch tempBranch e sE

/-- Position of `a` in `recent` as JavaScript `indexOf` computes it:
the index of the first occurrence, or `-1` when absent. -/
def jsIndexOf (recent : List Nat) (a : Nat) : Int :=
  match recent with
  | [] => -1
  | x :: xs =>
    if x = a then 0
    else
      let r := jsIndexOf xs a
      if r < 0 then -1 else r + 1

/-- The sort comparator of the classifier: compare positions in the
recent-commits list. -/
def selLe (recent : List Nat) (a b : Nat) : Bool :=
  decide (jsIndexOf recent a ≤ jsIndexOf recent b)

/-- Insert an element into an already-sorted list, before the first
element it compares less-or-equal to (so that, combined with
`stableSort`, ties keep their original relative order, as JavaScript's
stable `Array.prototype.sort` does). -/
def insertSorted (le : Nat → Nat → Bool) (a : Nat) : List Nat → List Nat
  | [] => [a]
  | b :: l => if le a b then a :: b :: l else b :: insertSorted le a l

/-- A stable comparison sort, modelling JavaScript's `Array.prototype.sort`
with a user comparator. -/
def stableSort (le : Nat → Nat → Bool) : List Nat → List Nat
  | [] => []
  | a :: l => insertSorted le a (stableSort le l)

/-- The classifier's final loop: compare the sorted selection with the
recent commits position by position over the selection's length. -/
def latestCheck : List Nat → List Nat → Bool
  | [], _ => true
  | _ :: _, [] => false
  | a :: as, b :: bs => a == b && latestCheck as bs

/-- The pure part of `areCommitsLatestAndConsecutive`: sort the selected
commits by their position among the recent commits (stable, as
JavaScript's sort), then check they are exactly the latest commits. -/
def classifyPure (commits recent : List Nat) : Bool :=
  let sortedSelectedCommits := stableSort (selLe recent) commits
  latestCheck sortedSelectedCommits recent

/-- `areCommitsLatestAndConsecutive`: fetch the `commits.length` most
recent commits and run the positional check. -/
def areCommitsLatestAndConsecutive (env : Env) (commits : List Nat) (s : St) : GRes Bool :=
  bindR (doLog env (some commits.length) s) fun lg s1 =>
  .ok (classifyPure commits (lg.map (·.hash)), s1)

/-- One line of the dry-run "After Squash" preview. -/
inductive AfterEntry where
  | newEntry (msg : String)
  | keep (hash : Nat) (msg : String)
deriving DecidableEq, Repr

/-- The dry-run preview: the "Current Commits" list (selected flag,
hash, message), the "After Squash" list, and the detail lines. -/
structure DryRunReport where
  before : List (Bool × Nat × String)
  after : List AfterEntry
  squashCount : Nat
  newMessage : String
  uncommitted : Option Nat
deriving DecidableEq, Repr

def buildReport (commits : List Nat) (msg : String) (oldestCommit : Nat) (dirty : Nat)
    (lg : List Commit) : DryRunReport :=
  { before := lg.map (fun c => (commits.contains c.hash, c.hash, c.message))
    after := lg.filterMap (fun c =>
      if commits.contains c.hash then
        (if c.hash == oldestCommit then some (.newEntry msg) else none)
      else some (.keep c.hash c.message))
    squashCount := commits.length
    newMessage := msg
    uncommitted := if dirty > 0 then some dirty else none }

/-- The body of `squashCommits` (inside its try): read status; in
dry-run mode read the preview log and build the report; otherwise stash
if dirty, classify, run the chosen path, and pop the stash if one was
saved. -/
def squashBody (env : Env) (commits : List Nat) (msg : String) (isDryRun : Bool) (s : St) :
    GRes (Option DryRunReport) :=
  let oldestCommit := (commits.getLast?).getD 0
  bindR (doStatus env s) fun dirty0 s1 =>
  if isDryRun then
    bindR (doLog env (some (max 10 (commits.length + 3))) s1) fun lg s2 =>
    .ok (some (buildReport commits msg oldestCommit dirty0 lg), s2)
  else
    bindR (if dirty0 > 0 then doStashSave env s1 else .ok ((), s1)) fun _ s2 =>
    bindR (areCommitsLatestAndConsecutive env commits s2) fun useSimpleApproach s3 =>
    bindR (if useSimpleApproach then squashLatestCommits env commits msg s3
           else squashNonConsecutiveCommits env commits msg s3) fun _ s4 =>
    bindR (if dirty0 > 0 then doStashPop env s4 else .ok ((), s4)) fun _ s5 =>
    .ok (none, s5)

/-- `squashCommits`: run the body under the catch-all; a caught error
becomes process exit code 1, success exit code 0. -/
def squashCommits (env : Env) (commits : List Nat) (msg : String) (isDryRun : Bool) (s : St) :
    (Nat × Option DryRunReport) × St :=
  match squashBody env commits msg isDryRun s with
  | .ok (r, s') => ((0, r), s')
  | .error (_, s') => ((1, none), s')
/-! ### Infrastructure lemmas -/

@[simp] theorem issue_branches (s : St) (op : GOp) : (issue s op).branches = s.branches := rfl
@[simp] theorem issue_current (s : St) (op : GOp) : (issue s op).current = s.current := rfl
@[simp] theorem issue_dirty (s : St) (op : GOp) : (issue s op).dirty = s.dirty := rfl
@[simp] theorem issue_stashSt (s : St) (op : GOp) : (issue s op).stashSt = s.stashSt := rfl
@[simp] theorem issue_staged (s : St) (op : GOp) : (issue s op).staged = s.staged := rfl
@[simp] theorem issue_nextHash (s : St) (op : GOp) : (issue s op).nextHash = s.nextHash := rfl
@[simp] theorem issue_objects (s : St) (op : GOp) : (issue s op).objects = s.objects := rfl
@[simp] theorem issue_parents (s : St) (op : GOp) : (issue s op).parents = s.parents := rfl
@[simp] theorem issue_now (s : St) (op : GOp) : (issue s op).now = s.now := rfl
@[simp] theorem issue_trace (s : St) (op : GOp) : (issue s op).trace = s.trace ++ [(s.current, op)] := rfl

@[simp] theorem stOf_ok {α : Type} (a : α) (s : St) : stOf (.ok (a, s)) = s := rfl
@[simp] theorem stOf_error {α : Type} (e : GitErr) (s : St) : stOf (α := α) (.error (e, s)) = s := rfl

@[simp] theorem curBranch_issue (s : St) (op : GOp) : curBranch (issue s op) = curBranch s := rfl

/-- Dry run (C7): `squashCommits` with the dry-run toggle performs only
the status read and one log read of `max 10 (n+3)` commits, mutates
nothing, and reports the uncommitted count when changes are present. -/
theorem dry_run_read_only (env : Env) (commits : List Nat) (msg : String) (s : St) :
    let r := squashCommits env commits msg true s
    (∃ l, r.2.trace = s.trace ++ l ∧ ∀ x ∈ l, x.2.isMutating = false ∧
      (x.2 = .statusRead ∨ x.2 = .logRead (some (max 10 (commits.length + 3))))) ∧
    r.2.branches = s.branches ∧ r.2.current = s.current ∧ r.2.dirty = s.dirty ∧
    r.2.stashSt = s.stashSt ∧ r.2.staged = s.staged ∧ r.2.nextHash = s.nextHash ∧
    r.2.objects = s.objects ∧ r.2.parents = s.parents ∧
    (r.1.1 = 0 → 0 < s.dirty → ∃ rep, r.1.2 = some rep ∧ rep.uncommitted = some s.dirty) := by
  unfold squashCommits squashBody doStatus doLog gwGuard
  cases h1 : env.failOn .statusRead with
  | true => simp [GOp.isMutating]
  | false =>
    cases h2 : env.failOn (.logRead (some (max 10 (commits.length + 3)))) with
    | true =>
      refine ⟨⟨[(s.current, .statusRead), (s.current, .logRead (some (max 10 (commits.length + 3))))],
        by simp [h1, h2, List.append_assoc], ?_⟩, by simp [h1, h2]⟩
      rintro x hx
      simp at hx
      rcases hx with ⟨rfl, rfl⟩ | ⟨rfl, rfl⟩ <;> simp [GOp.isMutating]
    | false =>
      refine ⟨⟨[(s.current, .statusRead), (s.current, .logRead (some (max 10 (commits.length + 3))))],
        by simp [h1, h2, List.append_assoc], ?_⟩, ?_⟩
      · rintro x hx
        simp at hx
        rcases hx with ⟨rfl, rfl⟩ | ⟨rfl, rfl⟩ <;> simp [GOp.isMutating]
      · refine ⟨by simp [h1, h2], by simp [h1, h2], by simp [h1, h2], by simp [h1, h2],
          by simp [h1, h2], by simp [h1, h2], by simp [h1, h2], by simp [h1, h2], ?_⟩
        intro _ hd
        refine ⟨buildReport commits msg ((commits.getLast?).getD 0) s.dirty
          ((curBranch s).take (max 10 (commits.length + 3))), by simp [h1, h2], ?_⟩
        simp [buildReport, hd]

/-! ### Preservation toolkit: traces only grow, and composite phases
    preserve state components they do not touch. -/

@[simp] theorem setBranch_stashSt (s : St) (b : String) (L : List Commit) :
    (setBranch s b L).stashSt = s.stashSt := rfl
@[simp] theorem setBranch_trace (s : St) (b : String) (L : List Commit) :
    (setBranch s b L).trace = s.trace := rfl
@[simp] theorem setBranch_current (s : St) (b : String) (L : List Commit) :
    (setBranch s b L).current = s.current := rfl
@[simp] theorem newCommitOn_stashSt (s : St) (ch : List Nat) (m : String) :
    (newCommitOn s ch m).stashSt = s.stashSt := rfl
@[simp] theorem newCommitOn_trace (s : St) (ch : List Nat) (m : String) :
    (newCommitOn s ch m).trace = s.trace := rfl
@[simp] theorem newCommitOn_current (s : St) (ch : List Nat) (m : String) :
    (newCommitOn s ch m).current = s.current := rfl

/-- The stash-safety invariant: the stash stack is untouched and no
stash operation was issued. -/
def GuardSafe (s : St) {α : Type} (r : GRes α) : Prop :=
  (stOf r).stashSt = s.stashSt ∧ ∃ l, (stOf r).trace = s.trace ++ l ∧
    ∀ x ∈ l, x.2 ≠ GOp.stashSave ∧ x.2 ≠ GOp.stashPop

theorem guardSafe_bindR {α β : Type} {s : St} {x : GRes α} {g : α → St → GRes β}
    (hx : GuardSafe s x) (hg : ∀ a s₁, x = .ok (a, s₁) → GuardSafe s₁ (g a s₁)) :
    GuardSafe s (bindR x g) := by
  cases x with
  | error e => exact hx
  | ok p =>
    obtain ⟨a, s₁⟩ := p
    obtain ⟨h1, l₁, hl₁, hP₁⟩ := hx
    obtain ⟨h2, l₂, hl₂, hP₂⟩ := hg a s₁ rfl
    refine ⟨by simp [bindR]; rw [h2]; simpa [stOf] using h1, l₁ ++ l₂, ?_, ?_⟩
    · simp [bindR]; rw [hl₂]; simp [stOf] at hl₁; rw [hl₁, List.append_assoc]
    · intro x hx
      rcases List.mem_append.mp hx with h | h
      · exact hP₁ x h
      · exact hP₂ x h

theorem guardSafe_gwGuard {α : Type} {env : Env} {op : GOp} {s : St} {k : St → GRes α}
    (hop : op ≠ GOp.stashSave ∧ op ≠ GOp.stashPop)
    (hk : ∀ s1, (stOf (k s1)).stashSt = s1.stashSt ∧ (stOf (k s1)).trace = s1.trace) :
    GuardSafe s (gwGuard env op s k) := by
  unfold gwGuard
  by_cases hf : env.failOn op = true
  · simp [hf]
    exact ⟨rfl, [(s.current, op)], by simp, by simpa using hop⟩
  · simp [hf]
    refine ⟨((hk (issue s op)).1).trans rfl, [(s.current, op)], ?_, by simpa using hop⟩
    rw [(hk (issue s op)).2]; simp

theorem guardSafe_doStatus {env : Env} {s : St} : GuardSafe s (doStatus env s) := by
  unfold doStatus
  exact guardSafe_gwGuard (by simp) (fun s1 => ⟨rfl, rfl⟩)

theorem guardSafe_doLog {env : Env} {mc : Option Nat} {s : St} : GuardSafe s (doLog env mc s) := by
  unfold doLog
  refine guardSafe_gwGuard (by simp) (fun s1 => ?_)
  cases mc <;> simp [stOf]

theorem guardSafe_doBranchQuery {env : Env} {s : St} : GuardSafe s (doBranchQuery env s) := by
  unfold doBranchQuery
  exact guardSafe_gwGuard (by simp) (fun s1 => ⟨rfl, rfl⟩)

theorem guardSafe_doCheckout {env : Env} {b : String} {s : St} : GuardSafe s (doCheckout env b s) := by
  unfold doCheckout
  refine guardSafe_gwGuard (by simp) (fun s1 => ?_)
  by_cases h : b ∈ branchNames s1 <;> simp [h, stOf]

theorem guardSafe_doCheckoutNew {env : Env} {b : String} {s : St} :
    GuardSafe s (doCheckoutNew env b s) := by
  unfold doCheckoutNew
  refine guardSafe_gwGuard (by simp) (fun s1 => ?_)
  by_cases h : b ∈ branchNames s1 <;> simp [h, stOf]

theorem guardSafe_doDeleteBranch {env : Env} {b : String} {s : St} :
    GuardSafe s (doDeleteBranch env b s) := by
  unfold doDeleteBranch
  refine guardSafe_gwGuard (by simp) (fun s1 => ?_)
  by_cases h1 : b = s1.current
  · simp [h1, stOf]
  · by_cases h2 : b ∈ branchNames s1 <;> simp [h1, h2, stOf]

theorem guardSafe_doCherryPick {env : Env} {h : Nat} {s : St} :
    GuardSafe s (doCherryPick env h s) := by
  unfold doCherryPick
  refine guardSafe_gwGuard (by simp) (fun s1 => ?_)
  cases hl : lookupObj s1 h <;> simp [hl, stOf]

theorem guardSafe_doReset {env : Env} {hard : Bool} {base : Nat} {s : St} :
    GuardSafe s (doReset env hard base s) := by
  unfold doReset
  refine guardSafe_gwGuard (by cases hard <;> simp) (fun s1 => ?_)
  cases hl : List.lookup base s1.parents with
  | none => simp [hl, stOf]
  | some po =>
    cases po with
    | none => simp [hl, stOf]
    | some p =>
      by_cases he : ((curBranch s1).dropWhile (fun c => c.hash != p)).isEmpty
      · simp [hl, he, stOf]
      · cases hard <;> simp [hl, he, stOf]

theorem guardSafe_doCommit {env : Env} {msg : String} {s : St} :
    GuardSafe s (doCommit env msg s) := by
  unfold doCommit
  refine guardSafe_gwGuard (by simp) (fun s1 => ?_)
  cases hl : s1.staged <;> simp [hl, stOf]

theorem guardSafe_doRevparse {env : Env} {s : St} : GuardSafe s (doRevparse env s) := by
  unfold doRevparse
  refine guardSafe_gwGuard (by simp) (fun s1 => ?_)
  cases hl : (curBranch s1).head? <;> simp [hl, stOf]

theorem guardSafe_cherryPickAll {env : Env} : ∀ (l : List Nat) (s : St),
    GuardSafe s (cherryPickAll env l s)
  | [], s => by
    unfold cherryPickAll
    exact ⟨rfl, [], by simp, by simp⟩
  | h :: t, s => by
    unfold cherryPickAll
    exact guardSafe_bindR guardSafe_doCherryPick
      (fun a s₁ _ => guardSafe_cherryPickAll t s₁)

theorem guardSafe_classifier {env : Env} {commits : List Nat} {s : St} :
    GuardSafe s (areCommitsLatestAndConsecutive env commits s) := by
  unfold areCommitsLatestAndConsecutive
  exact guardSafe_bindR guardSafe_doLog (fun a s₁ _ => ⟨rfl, [], by simp, by simp⟩)

theorem guardSafe_fast {env : Env} {commits : List Nat} {msg : String} {s : St} :
    GuardSafe s (squashLatestCommits env commits msg s) := by
  unfold squashLatestCommits
  exact guardSafe_bindR guardSafe_doReset (fun a s₁ _ => guardSafe_doCommit)

theorem guardSafe_gpReconstruct {env : Env} {commits : List Nat} {msg : String} {s : St} :
    GuardSafe s (gpReconstruct env commits msg s) := by
  unfold gpReconstruct
  exact guardSafe_bindR guardSafe_doReset (fun _ s₁ _ =>
    guardSafe_bindR (guardSafe_cherryPickAll _ _) (fun _ s₂ _ =>
      guardSafe_bindR guardSafe_doReset (fun _ s₃ _ =>
        guardSafe_bindR guardSafe_doCommit (fun _ s₄ _ => guardSafe_doRevparse))))

theorem guardSafe_gpTransplant {env : Env} {cb tb : String} {oc nc : Nat}
    {later : List (Nat × String)} {s : St} :
    GuardSafe s (gpTransplant env cb tb oc nc later s) := by
  unfold gpTransplant
  exact guardSafe_bindR guardSafe_doCheckout (fun _ s₁ _ =>
    guardSafe_bindR guardSafe_doReset (fun _ s₂ _ =>
      guardSafe_bindR guardSafe_doCherryPick (fun _ s₃ _ =>
        guardSafe_bindR (guardSafe_cherryPickAll _ _) (fun _ s₄ _ =>
          guardSafe_doDeleteBranch))))

theorem guardSafe_trans {α β : Type} {s : St} {r : GRes α} {r' : GRes β}
    (h1 : GuardSafe s r) (h2 : GuardSafe (stOf r) r') : GuardSafe s r' := by
  obtain ⟨a1, l₁, hl₁, hP₁⟩ := h1
  obtain ⟨a2, l₂, hl₂, hP₂⟩ := h2
  refine ⟨a2.trans a1, l₁ ++ l₂, by rw [hl₂, hl₁, List.append_assoc], ?_⟩
  intro x hx
  rcases List.mem_append.mp hx with h | h
  · exact hP₁ x h
  · exact hP₂ x h

theorem guardSafe_gpCatch {env : Env} {cb tb : String} {e : GitErr} {s : St} :
    GuardSafe s (gpCatch env cb tb e s) := by
  have h1 := @guardSafe_doCheckout env cb s
  unfold gpCatch
  split
  · rename_i e2 heq
    rw [heq] at h1; exact h1
  · rename_i u s₁ heq
    rw [heq] at h1
    have h2 := @guardSafe_doDeleteBranch env tb s₁
    split
    · rename_i e3 s₂ heq2
      rw [heq2] at h2
      exact guardSafe_trans h1 ⟨h2.1, h2.2⟩
    · rename_i u2 s₂ heq2
      rw [heq2] at h2
      exact guardSafe_trans h1 ⟨h2.1, h2.2⟩

theorem guardSafe_general {env : Env} {commits : List Nat} {msg : String} {s : St} :
    GuardSafe s (squashNonConsecutiveCommits env commits msg s) := by
  unfold squashNonConsecutiveCommits
  refine guardSafe_bindR guardSafe_doBranchQuery (fun cb s₁ _ => ?_)
  refine guardSafe_bindR guardSafe_doLog (fun lg s₂ _ => ?_)
  refine guardSafe_bindR guardSafe_doCheckoutNew (fun _ s₃ _ => ?_)
  have hbody : GuardSafe s₃ (bindR (gpReconstruct env commits msg s₃) fun newCommit s₄ =>
      gpTransplant env cb (tempName s₁) ((commits.getLast?).getD 0) newCommit
        ((lg.takeWhile (fun c => c.hash != commits.headD 0)).map (fun c => (c.hash, c.message))) s₄) :=
    guardSafe_bindR guardSafe_gpReconstruct (fun _ s₄ _ => guardSafe_gpTransplant)
  cases hb : (bindR (gpReconstruct env commits msg s₃) fun newCommit s₄ =>
      gpTransplant env cb (tempName s₁) ((commits.getLast?).getD 0) newCommit
        ((lg.takeWhile (fun c => c.hash != commits.headD 0)).map (fun c => (c.hash, c.message))) s₄) with
  | ok r =>
    rw [hb] at hbody
    exact hbody
  | error ep =>
    obtain ⟨e, sE⟩ := ep
    rw [hb] at hbody
    exact guardSafe_trans hbody guardSafe_gpCatch

theorem added_not_mem {s s' : St} {op : GOp} (l : List (String × GOp))
    (htr : s'.trace = s.trace ++ l) (hl : ∀ x ∈ l, x.2 ≠ op) :
    ¬ ∃ b, (b, op) ∈ s'.trace.drop s.trace.length := by
  rw [htr, List.drop_left]
  rintro ⟨b, hb⟩
  exact hl _ hb rfl

theorem added_mem {s s' : St} {op : GOp} (b0 : String) (l : List (String × GOp))
    (htr : s'.trace = s.trace ++ l) (hb : (b0, op) ∈ l) :
    ∃ b, (b, op) ∈ s'.trace.drop s.trace.length :=
  ⟨b0, by rw [htr, List.drop_left]; exact hb⟩

theorem doStatus_ok {env : Env} {s : St} (h : env.failOn .statusRead = false) :
    ∃ s1, doStatus env s = .ok (s.dirty, s1) ∧
      s1.trace = s.trace ++ [(s.current, GOp.statusRead)] ∧
      s1.stashSt = s.stashSt ∧ s1.dirty = s.dirty ∧ s1.current = s.current ∧
      s1.branches = s.branches := by
  refine ⟨issue s .statusRead, ?_, by simp, rfl, rfl, rfl, rfl⟩
  unfold doStatus gwGuard; simp [h]

theorem doStashSave_ok {env : Env} {s : St} (h : env.failOn .stashSave = false) :
    ∃ s2, doStashSave env s = .ok ((), s2) ∧
      s2.trace = s.trace ++ [(s.current, GOp.stashSave)] ∧
      s2.stashSt = s.dirty :: s.stashSt ∧ s2.current = s.current ∧
      s2.branches = s.branches := by
  refine ⟨{ issue s .stashSave with stashSt := s.dirty :: s.stashSt, dirty := 0 },
    ?_, by simp [issue], rfl, rfl, rfl⟩
  unfold doStashSave gwGuard; simp [h]

theorem doStashSave_fail {env : Env} {s : St} (h : env.failOn .stashSave = true) :
    ∃ s2, doStashSave env s = .error (.injected .stashSave, s2) ∧
      s2.trace = s.trace ++ [(s.current, GOp.stashSave)] := by
  refine ⟨issue s .stashSave, ?_, by simp⟩
  unfold doStashSave gwGuard; simp [h]

theorem doStashPop_ok {env : Env} {s : St} {n : Nat} {rest : List Nat}
    (h : env.failOn .stashPop = false) (hst : s.stashSt = n :: rest) :
    ∃ s2, doStashPop env s = .ok ((), s2) ∧
      s2.trace = s.trace ++ [(s.current, GOp.stashPop)] := by
  refine ⟨{ issue s .stashPop with stashSt := rest, dirty := s.dirty + n }, ?_, by simp [issue]⟩
  unfold doStashPop gwGuard
  simp [h, hst]

/-- Working-tree guard (C8): in a non-dry-run squash, a stash save is
issued if and only if the pre-rewrite `status()` reported uncommitted
files, and a stash pop is issued exactly when that status reported
uncommitted files and the whole squash succeeded (exit code 0); when the
squash fails the stash is not popped and the exit code is nonzero. -/
theorem stash_save_pop_guard (env : Env) (commits : List Nat) (msg : String) (s : St)
    (hStatus : env.failOn .statusRead = false) (hPop : env.failOn .stashPop = false) :
    ((∃ b, (b, GOp.stashSave) ∈ (squashCommits env commits msg false s).2.trace.drop s.trace.length)
        ↔ 0 < s.dirty) ∧
    ((∃ b, (b, GOp.stashPop) ∈ (squashCommits env commits msg false s).2.trace.drop s.trace.length)
        ↔ 0 < s.dirty ∧ (squashCommits env commits msg false s).1.1 = 0) := by
  obtain ⟨s1, hstat, htr1, hst1, hd1, hc1, hb1⟩ := @doStatus_ok env s hStatus
  unfold squashCommits squashBody
  rw [hstat]
  simp only [bindR_ok, Bool.false_eq_true, if_false]
  by_cases hd : s.dirty > 0
  · -- uncommitted changes present: stash save issued
    simp only [if_pos hd]
    by_cases hfS : env.failOn GOp.stashSave = true
    · -- the save itself fails: exit 1, no pop
      obtain ⟨s2, hsv, htr2⟩ := doStashSave_fail (s := s1) hfS
      rw [hsv]
      simp only [bindR_error]
      refine ⟨⟨fun _ => hd, fun _ => ?_⟩, ⟨fun hmem => ?_, by rintro ⟨-, h0⟩; simp at h0⟩⟩
      · exact added_mem s1.current [(s.current, GOp.statusRead), (s1.current, GOp.stashSave)]
          (by rw [htr2, htr1]; simp) (by simp)
      · refine absurd hmem (added_not_mem
          [(s.current, GOp.statusRead), (s1.current, GOp.stashSave)]
          (by rw [htr2, htr1]; simp) ?_)
        intro x hx
        simp only [List.mem_cons, List.not_mem_nil, or_false] at hx
        rcases hx with rfl | rfl <;> simp
    · -- save succeeds
      obtain ⟨s2, hsv, htr2, hst2, hc2, hb2⟩ := doStashSave_ok (s := s1) (by simpa using hfS)
      rw [hsv]
      simp only [bindR_ok]
      have hpre2 : s2.trace = s.trace ++ [(s.current, GOp.statusRead), (s1.current, GOp.stashSave)] := by
        rw [htr2, htr1]; simp
      have GScl := @guardSafe_classifier env commits s2
      cases hcl : areCommitsLatestAndConsecutive env commits s2 with
      | error ep =>
        obtain ⟨e, sE⟩ := ep
        rw [hcl] at GScl
        simp only [bindR_error]
        obtain ⟨hstash, lcl, hltr, hlP⟩ := GScl
        simp only [stOf] at hstash hltr
        refine ⟨⟨fun _ => hd, fun _ => ?_⟩, ⟨fun hmem => ?_, by rintro ⟨-, h0⟩; simp at h0⟩⟩
        · exact added_mem s1.current
            ([(s.current, GOp.statusRead), (s1.current, GOp.stashSave)] ++ lcl)
            (by rw [hltr, hpre2]; simp) (by simp)
        · refine absurd hmem (added_not_mem
            ([(s.current, GOp.statusRead), (s1.current, GOp.stashSave)] ++ lcl)
            (by rw [hltr, hpre2]; simp) ?_)
          intro x hx
          rcases List.mem_append.mp hx with h | h
          · simp only [List.mem_cons, List.not_mem_nil, or_false] at h
            rcases h with rfl | rfl <;> simp
          · exact (hlP x h).2
      | ok p =>
        obtain ⟨u, s3⟩ := p
        rw [hcl] at GScl
        simp only [bindR_ok]
        obtain ⟨hstash3, lcl, hltr3, hlP3⟩ := GScl
        simp only [stOf] at hstash3 hltr3
        have GSpath : GuardSafe s3 (if u = true then squashLatestCommits env commits msg s3
            else squashNonConsecutiveCommits env commits msg s3) := by
          cases u
          · simpa using guardSafe_general
          · simpa using guardSafe_fast
        cases hpath : (if u = true then squashLatestCommits env commits msg s3
            else squashNonConsecutiveCommits env commits msg s3) with
        | error ep =>
          obtain ⟨e, sE⟩ := ep
          rw [hpath] at GSpath
          simp only [bindR_error]
          obtain ⟨hstashP, lp, hptr, hpP⟩ := GSpath
          simp only [stOf] at hstashP hptr
          refine ⟨⟨fun _ => hd, fun _ => ?_⟩, ⟨fun hmem => ?_, by rintro ⟨-, h0⟩; simp at h0⟩⟩
          · exact added_mem s1.current
              ([(s.current, GOp.statusRead), (s1.current, GOp.stashSave)] ++ (lcl ++ lp))
              (by rw [hptr, hltr3, hpre2]; simp) (by simp)
          · refine absurd hmem (added_not_mem
              ([(s.current, GOp.statusRead), (s1.current, GOp.stashSave)] ++ (lcl ++ lp))
              (by rw [hptr, hltr3, hpre2]; simp) ?_)
            intro x hx
            rcases List.mem_append.mp hx with h | h
            · simp only [List.mem_cons, List.not_mem_nil, or_false] at h
              rcases h with rfl | rfl <;> simp
            · rcases List.mem_append.mp h with h | h
              · exact (hlP3 x h).2
              · exact (hpP x h).2
        | ok p2 =>
          obtain ⟨u2, s4⟩ := p2
          rw [hpath] at GSpath
          simp only [bindR_ok, if_pos hd]
          obtain ⟨hstashP, lp, hptr, hpP⟩ := GSpath
          simp only [stOf] at hstashP hptr
          have hst4 : s4.stashSt = s.dirty :: s.stashSt := by
            rw [hstashP, hstash3, hst2, hd1, hst1]
          obtain ⟨s5, hpop, htr5⟩ := doStashPop_ok (s := s4) hPop hst4
          rw [hpop]
          simp only [bindR_ok]
          have hfull : s5.trace = s.trace ++
              ([(s.current, GOp.statusRead), (s1.current, GOp.stashSave)]
                ++ (lcl ++ (lp ++ [(s4.current, GOp.stashPop)]))) := by
            rw [htr5, hptr, hltr3, hpre2]; simp [List.append_assoc]
          exact ⟨⟨fun _ => hd, fun _ => added_mem s1.current _ hfull (by simp)⟩,
            ⟨fun _ => ⟨hd, by simp⟩, fun _ => added_mem s4.current _ hfull (by simp)⟩⟩
  · -- clean tree: no stash operations at all
    simp only [if_neg hd, bindR_ok]
    have GScl := @guardSafe_classifier env commits s1
    cases hcl : areCommitsLatestAndConsecutive env commits s1 with
    | error ep =>
      obtain ⟨e, sE⟩ := ep
      rw [hcl] at GScl
      simp only [bindR_error]
      obtain ⟨-, lcl, hltr, hlP⟩ := GScl
      simp only [stOf] at hltr
      have hfull : sE.trace = s.trace ++ ((s.current, GOp.statusRead) :: lcl) := by
        rw [hltr, htr1]; simp
      refine ⟨⟨fun hmem => ?_, fun h0 => absurd h0 hd⟩,
        ⟨fun hmem => ?_, by rintro ⟨h0, -⟩; exact absurd h0 hd⟩⟩
      · refine absurd hmem (added_not_mem _ hfull ?_)
        intro x hx
        rcases List.mem_cons.mp hx with rfl | hx
        · simp
        · exact (hlP x hx).1
      · refine absurd hmem (added_not_mem _ hfull ?_)
        intro x hx
        rcases List.mem_cons.mp hx with rfl | hx
        · simp
        · exact (hlP x hx).2
    | ok p =>
      obtain ⟨u, s3⟩ := p
      rw [hcl] at GScl
      simp only [bindR_ok]
      obtain ⟨-, lcl, hltr3, hlP3⟩ := GScl
      simp only [stOf] at hltr3
      have GSpath : GuardSafe s3 (if u = true then squashLatestCommits env commits msg s3
          else squashNonConsecutiveCommits env commits msg s3) := by
        cases u
        · simpa using guardSafe_general
        · simpa using guardSafe_fast
      cases hpath : (if u = true then squashLatestCommits env commits msg s3
          else squashNonConsecutiveCommits env commits msg s3) with
      | error ep =>
        obtain ⟨e, sE⟩ := ep
        rw [hpath] at GSpath
        simp only [bindR_error]
        obtain ⟨-, lp, hptr, hpP⟩ := GSpath
        simp only [stOf] at hptr
        have hfull : sE.trace = s.trace ++ ((s.current, GOp.statusRead) :: (lcl ++ lp)) := by
          rw [hptr, hltr3, htr1]; simp
        refine ⟨⟨fun hmem => ?_, fun h0 => absurd h0 hd⟩,
          ⟨fun hmem => ?_, by rintro ⟨h0, -⟩; exact absurd h0 hd⟩⟩
        · refine absurd hmem (added_not_mem _ hfull ?_)
          intro x hx
          rcases List.mem_cons.mp hx with rfl | hx
          · simp
          · rcases List.mem_append.mp hx with h | h
            · exact (hlP3 x h).1
            · exact (hpP x h).1
        · refine absurd hmem (added_not_mem _ hfull ?_)
          intro x hx
          rcases List.mem_cons.mp hx with rfl | hx
          · simp
          · rcases List.mem_append.mp hx with h | h
            · exact (hlP3 x h).2
            · exact (hpP x h).2
      | ok p2 =>
        obtain ⟨u2, s4⟩ := p2
        rw [hpath] at GSpath
        simp only [bindR_ok, if_neg hd, bindR_ok]
        obtain ⟨-, lp, hptr, hpP⟩ := GSpath
        simp only [stOf] at hptr
        have hfull : s4.trace = s.trace ++ ((s.current, GOp.statusRead) :: (lcl ++ lp)) := by
          rw [hptr, hltr3, htr1]; simp
        refine ⟨⟨fun hmem => ?_, fun h0 => absurd h0 hd⟩,
          ⟨fun hmem => ?_, by rintro ⟨h0, -⟩; exact absurd h0 hd⟩⟩
        · refine absurd hmem (added_not_mem _ hfull ?_)
          intro x hx
          rcases List.mem_cons.mp hx with rfl | hx
          · simp
          · rcases List.mem_append.mp hx with h | h
            · exact (hlP3 x h).1
            · exact (hpP x h).1
        · refine absurd hmem (added_not_mem _ hfull ?_)
          intro x hx
          rcases List.mem_cons.mp hx with rfl | hx
          · simp
          · rcases List.mem_append.mp hx with h | h
            · exact (hlP3 x h).2
            · exact (hpP x h).2

/-! ### Step characterization lemmas -/

/-- Two states agreeing on everything but the trace. -/
def CoreEq (a b : St) : Prop :=
  a.branches = b.branches ∧ a.current = b.current ∧ a.objects = b.objects ∧
  a.parents = b.parents ∧ a.dirty = b.dirty ∧ a.stashSt = b.stashSt ∧
  a.staged = b.staged ∧ a.nextHash = b.nextHash ∧ a.now = b.now

theorem coreEq_issue (s : St) (op : GOp) : CoreEq (issue s op) s :=
  ⟨rfl, rfl, rfl, rfl, rfl, rfl, rfl, rfl, rfl⟩

theorem CoreEq.curBranch_eq {a b : St} (h : CoreEq a b) : curBranch a = curBranch b := by
  unfold curBranch getBranch
  rw [h.1, h.2.1]

theorem CoreEq.branchNames_eq {a b : St} (h : CoreEq a b) : branchNames a = branchNames b := by
  unfold branchNames
  rw [h.1]

theorem CoreEq.tempName_eq {a b : St} (h : CoreEq a b) : tempName a = tempName b := by
  unfold tempName
  rw [h.2.2.2.2.2.2.2.2]

@[simp] theorem branchNames_issue (s : St) (op : GOp) :
    branchNames (issue s op) = branchNames s := rfl

theorem doBranchQuery_ok {env : Env} {s : St} (h : env.failOn .branchQuery = false) :
    ∃ s1, doBranchQuery env s = .ok (s.current, s1) ∧ CoreEq s1 s ∧
      s1.trace = s.trace ++ [(s.current, GOp.branchQuery)] :=
  ⟨issue s .branchQuery, by unfold doBranchQuery gwGuard; simp [h], coreEq_issue s _, by simp⟩

theorem doLog_none_ok {env : Env} {s : St} (h : env.failOn (.logRead none) = false) :
    ∃ s1, doLog env none s = .ok (curBranch s, s1) ∧ CoreEq s1 s ∧
      s1.trace = s.trace ++ [(s.current, GOp.logRead none)] :=
  ⟨issue s (.logRead none), by unfold doLog gwGuard; simp [h], coreEq_issue s _, by simp⟩

theorem doLog_some_ok {env : Env} {s : St} {n : Nat} (h : env.failOn (.logRead (some n)) = false) :
    ∃ s1, doLog env (some n) s = .ok ((curBranch s).take n, s1) ∧ CoreEq s1 s ∧
      s1.trace = s.trace ++ [(s.current, GOp.logRead (some n))] :=
  ⟨issue s (.logRead (some n)), by unfold doLog gwGuard; simp [h], coreEq_issue s _, by simp⟩

theorem doCheckoutNew_ok {env : Env} {b : String} {s : St}
    (h : env.failOn (.createBranch b) = false) (hb : b ∉ branchNames s) :
    ∃ s1, doCheckoutNew env b s = .ok ((), s1) ∧
      s1.branches = (b, curBranch s) :: s.branches ∧ s1.current = b ∧
      s1.objects = s.objects ∧ s1.parents = s.parents ∧ s1.dirty = s.dirty ∧
      s1.stashSt = s.stashSt ∧ s1.staged = s.staged ∧ s1.nextHash = s.nextHash ∧
      s1.now = s.now ∧ s1.trace = s.trace ++ [(s.current, GOp.createBranch b)] := by
  refine ⟨{ issue s (.createBranch b) with
    branches := (b, curBranch (issue s (.createBranch b))) :: (issue s (.createBranch b)).branches,
    current := b }, ?_, by simp [curBranch, getBranch], rfl, rfl, rfl, rfl, rfl, rfl, rfl, rfl, by simp⟩
  unfold doCheckoutNew gwGuard
  simp [h, hb]

theorem doCheckout_ok {env : Env} {b : String} {s : St}
    (h : env.failOn (.checkoutBranch b) = false) (hb : b ∈ branchNames s) :
    ∃ s1, doCheckout env b s = .ok ((), s1) ∧
      s1.branches = s.branches ∧ s1.current = b ∧
      s1.objects = s.objects ∧ s1.parents = s.parents ∧ s1.dirty = s.dirty ∧
      s1.stashSt = s.stashSt ∧ s1.staged = s.staged ∧ s1.nextHash = s.nextHash ∧
      s1.now = s.now ∧ s1.trace = s.trace ++ [(s.current, GOp.checkoutBranch b)] := by
  refine ⟨{ issue s (.checkoutBranch b) with current := b },
    ?_, rfl, rfl, rfl, rfl, rfl, rfl, rfl, rfl, rfl, by simp⟩
  unfold doCheckout gwGuard
  simp [h, hb]

theorem doDeleteBranch_ok {env : Env} {b : String} {s : St}
    (h : env.failOn (.deleteBranch b) = false) (hne : b ≠ s.current) (hb : b ∈ branchNames s) :
    ∃ s1, doDeleteBranch env b s = .ok ((), s1) ∧
      s1.branches = s.branches.filter (fun p => p.1 != b) ∧ s1.current = s.current ∧
      s1.objects = s.objects ∧ s1.parents = s.parents ∧ s1.dirty = s.dirty ∧
      s1.stashSt = s.stashSt ∧ s1.staged = s.staged ∧ s1.nextHash = s.nextHash ∧
      s1.now = s.now ∧ s1.trace = s.trace ++ [(s.current, GOp.deleteBranch b)] := by
  refine ⟨{ issue s (.deleteBranch b) with
    branches := (issue s (.deleteBranch b)).branches.filter (fun p => p.1 != b) },
    ?_, by simp, rfl, rfl, rfl, rfl, rfl, rfl, rfl, rfl, by simp⟩
  unfold doDeleteBranch gwGuard
  simp [h, hb, fun hc => hne hc]

theorem doReset_noParent_fail {env : Env} {hard : Bool} {base : Nat} {s : St}
    (h : env.failOn (if hard then GOp.hardReset base else GOp.softReset base) = false)
    (hRoot : List.lookup base s.parents = some none) :
    ∃ s1, doReset env hard base s = .error (.badRevision base, s1) ∧ CoreEq s1 s ∧
      s1.trace = s.trace ++ [(s.current, if hard then GOp.hardReset base else GOp.softReset base)] := by
  refine ⟨issue s (if hard then GOp.hardReset base else GOp.softReset base),
    ?_, coreEq_issue s _, by simp⟩
  unfold doReset gwGuard
  simp [h, hRoot]

theorem gpReconstruct_root_fail {env : Env} {commits : List Nat} {msg : String} {s : St}
    (h : env.failOn (GOp.hardReset ((commits.getLast?).getD 0)) = false)
    (hRoot : List.lookup ((commits.getLast?).getD 0) s.parents = some none) :
    ∃ sE, gpReconstruct env commits msg s = .error (.badRevision ((commits.getLast?).getD 0), sE) ∧
      CoreEq sE s ∧
      sE.trace = s.trace ++ [(s.current, GOp.hardReset ((commits.getLast?).getD 0))] := by
  obtain ⟨s1, hr, hc, ht⟩ := @doReset_noParent_fail _ true _ _ (by simpa using h) hRoot
  refine ⟨s1, ?_, hc, by simpa using ht⟩
  unfold gpReconstruct
  simp [hr]

theorem filter_ne_of_not_memName {b : String} {l : List (String × List Commit)}
    (hb : b ∉ l.map (·.1)) : l.filter (fun p => p.1 != b) = l := by
  apply List.filter_eq_self.mpr
  intro p hp
  simp only [bne_iff_ne, ne_eq]
  intro hc
  exact hb (hc ▸ List.mem_map_of_mem (·.1) hp)

/-- Root-commit edge case (C10): when the oldest selected commit has no
parent, resolving `oldest~1` fails in both the fast path (at its soft
reset) and the general path (at the hard reset on the temporary branch,
after which the rollback handler restores the original branch set), and
no new commit is created in either run (the fresh-hash counter and the
branch table are unchanged). -/
theorem root_oldest_both_paths_fail (env : Env) (commits : List Nat) (msg : String) (s : St)
    (hEnv : ∀ op, env.failOn op = false)
    (hRoot : List.lookup ((commits.getLast?).getD 0) s.parents = some none)
    (hTempNe : tempName s ≠ s.current)
    (hTempNB : tempName s ∉ branchNames s)
    (hCur : s.current ∈ branchNames s) :
    (∃ sF, squashLatestCommits env commits msg s =
        .error (.badRevision ((commits.getLast?).getD 0), sF) ∧
      sF.branches = s.branches ∧ sF.nextHash = s.nextHash) ∧
    (∃ sG, squashNonConsecutiveCommits env commits msg s =
        .error (.badRevision ((commits.getLast?).getD 0), sG) ∧
      sG.branches = s.branches ∧ sG.nextHash = s.nextHash) := by
  constructor
  · -- fast path: the soft reset fails resolving the parent
    obtain ⟨sF, hr, hc, -⟩ := @doReset_noParent_fail env false
      ((commits.getLast?).getD 0) s (by simpa using hEnv _) hRoot
    refine ⟨sF, ?_, hc.1, hc.2.2.2.2.2.2.2.1⟩
    unfold squashLatestCommits
    simp [hr]
  · -- general path: the hard reset on the temp branch fails, then rollback
    obtain ⟨s1, h1, hc1, -⟩ := @doBranchQuery_ok env s (hEnv _)
    obtain ⟨s2, h2, hc2, -⟩ := @doLog_none_ok env s1 (hEnv _)
    have hTempNB2 : tempName s1 ∉ branchNames s2 := by
      rw [hc1.tempName_eq, hc2.branchNames_eq, hc1.branchNames_eq]
      exact hTempNB
    obtain ⟨s3, h3, hb3, hcur3, hob3, hp3, hd3, hst3, hsg3, hn3, hnow3, -⟩ :=
      @doCheckoutNew_ok env (tempName s1) s2 (hEnv _) hTempNB2
    have hp3' : List.lookup ((commits.getLast?).getD 0) s3.parents = some none := by
      rw [hp3, hc2.2.2.2.1, hc1.2.2.2.1]; exact hRoot
    obtain ⟨sE, hRec, hcE, -⟩ := @gpReconstruct_root_fail env commits
      msg s3 (hEnv _) hp3'
    -- the rollback: check out the original branch, then delete the temp branch
    have hCurE : s.current ∈ branchNames sE := by
      rw [hcE.branchNames_eq]
      show s.current ∈ branchNames s3
      unfold branchNames
      rw [hb3]
      simp only [List.map_cons, List.mem_cons]
      right
      show s.current ∈ branchNames s2
      rw [hc2.branchNames_eq, hc1.branchNames_eq]
      exact hCur
    obtain ⟨sC, hco, hbC, hcurC, hobC, hpC, hdC, hstC, hsgC, hnC, hnowC, -⟩ :=
      @doCheckout_ok env s.current sE (hEnv _) hCurE
    have hTempNeC : tempName s1 ≠ sC.current := by
      rw [hcurC, hc1.tempName_eq]
      exact hTempNe
    have hTempC : tempName s1 ∈ branchNames sC := by
      unfold branchNames
      rw [hbC, hcE.1, hb3]
      simp
    obtain ⟨sG, hdel, hbG, hcurG, hobG, hpG, hdG, hstG, hsgG, hnG, hnowG, -⟩ :=
      @doDeleteBranch_ok env (tempName s1) sC (hEnv _) hTempNeC hTempC
    refine ⟨sG, ?_, ?_, ?_⟩
    · unfold squashNonConsecutiveCommits
      rw [h1]
      simp only [bindR_ok]
      rw [h2]
      simp only [bindR_ok]
      rw [h3]
      simp only [bindR_ok]
      rw [hRec]
      simp only [bindR_error]
      unfold gpCatch
      rw [hco]
      simp [hdel]
    · rw [hbG, hbC, hcE.1, hb3, hc2.1, hc1.1]
      rw [List.filter_cons_of_neg (by simp)]
      exact filter_ne_of_not_memName (by rw [hc1.tempName_eq]; exact hTempNB)
    · rw [hnG, hnC, hcE.2.2.2.2.2.2.2.1, hn3, hc2.2.2.2.2.2.2.2.1, hc1.2.2.2.2.2.2.2.1]

/-! ### Branch-lookup frame lemmas -/

theorem lookup_cons_ne {b' b : String} {L : List Commit} {l : List (String × List Commit)}
    (hne : b' ≠ b) : List.lookup b' ((b, L) :: l) = List.lookup b' l := by
  have h2 : (b' == b) = false := beq_eq_false_iff_ne.mpr hne
  simp [List.lookup, h2]

theorem lookup_filter_ne {b' b : String} (l : List (String × List Commit))
    (hne : b' ≠ b) : List.lookup b' (l.filter (fun p => p.1 != b)) = List.lookup b' l := by
  induction l with
  | nil => rfl
  | cons p t ih =>
    by_cases hp : p.1 = b
    · rw [List.filter_cons_of_neg (by simp [hp])]
      rw [ih]
      obtain ⟨k, v⟩ := p
      simp only at hp
      rw [lookup_cons_ne (hp ▸ hne)]
    · rw [List.filter_cons_of_pos (by simp [hp])]
      obtain ⟨k, v⟩ := p
      by_cases hk : k = b'
      · subst hk
        simp [List.lookup]
      · rw [lookup_cons_ne (Ne.symm hk), lookup_cons_ne (Ne.symm hk), ih]

theorem lookup_keyUpdate_ne {b' c : String} {L : List Commit}
    (l : List (String × List Commit)) (hne : b' ≠ c) :
    List.lookup b' (l.map (fun p => if p.1 = c then (c, L) else p)) = List.lookup b' l := by
  induction l with
  | nil => rfl
  | cons p t ih =>
    obtain ⟨k, v⟩ := p
    by_cases hp : k = c
    · simp only [List.map_cons, if_pos hp]
      rw [lookup_cons_ne hne, ih, hp, lookup_cons_ne hne]
    · simp only [List.map_cons, if_neg hp]
      by_cases hk : k = b'
      · subst hk
        simp [List.lookup]
      · rw [lookup_cons_ne (Ne.symm hk), lookup_cons_ne (Ne.symm hk), ih]

theorem lookup_setBranch_ne {b' : String} {s : St} {L : List Commit} (hne : b' ≠ s.current) :
    List.lookup b' (setBranch s s.current L).branches = List.lookup b' s.branches := by
  unfold setBranch
  exact lookup_keyUpdate_ne s.branches hne

theorem lookup_newCommitOn_ne {b' : String} {s : St} {ch : List Nat} {m : String}
    (hne : b' ≠ s.current) :
    List.lookup b' (newCommitOn s ch m).branches = List.lookup b' s.branches := by
  unfold newCommitOn
  exact lookup_setBranch_ne hne

/-- All-outcome characterization of ops that never touch branch refs. -/
theorem stOf_doBranchQuery_coreEq {env : Env} {s : St} :
    CoreEq (stOf (doBranchQuery env s)) s := by
  unfold doBranchQuery gwGuard
  by_cases h : env.failOn .branchQuery = true <;> simp [h] <;> exact coreEq_issue s _

theorem stOf_doLog_coreEq {env : Env} {mc : Option Nat} {s : St} :
    CoreEq (stOf (doLog env mc s)) s := by
  unfold doLog gwGuard
  by_cases h : env.failOn (.logRead mc) = true
  · simp [h]; exact coreEq_issue s _
  · cases mc <;> simp [h] <;> exact coreEq_issue s _

theorem stOf_doRevparse_coreEq {env : Env} {s : St} :
    CoreEq (stOf (doRevparse env s)) s := by
  unfold doRevparse gwGuard
  by_cases h : env.failOn .revparse = true
  · simp [h]; exact coreEq_issue s _
  · simp only [h, Bool.false_eq_true, if_false, curBranch_issue]
    cases hh : (curBranch s).head? <;> simp [hh] <;> exact coreEq_issue s _

theorem stOf_doCheckout_branches {env : Env} {b : String} {s : St} :
    (stOf (doCheckout env b s)).branches = s.branches ∧
    List.lookup b (stOf (doCheckout env b s)).branches = List.lookup b s.branches := by
  unfold doCheckout gwGuard
  by_cases h : env.failOn (.checkoutBranch b) = true
  · simp [h]
  · by_cases hb : b ∈ branchNames s <;> simp [h, hb]

theorem stOf_doCheckoutNew_lookup {env : Env} {b b' : String} {s : St} (hne : b' ≠ b) :
    List.lookup b' (stOf (doCheckoutNew env b s)).branches = List.lookup b' s.branches ∧
    ((stOf (doCheckoutNew env b s)).current = s.current ∨
      (stOf (doCheckoutNew env b s)).current = b) := by
  unfold doCheckoutNew gwGuard
  by_cases h : env.failOn (.createBranch b) = true
  · simp [h]
  · by_cases hb : b ∈ branchNames s
    · simp [h, hb]
    · simp [h, hb, lookup_cons_ne hne]

theorem stOf_doDeleteBranch_lookup {env : Env} {b b' : String} {s : St} (hne : b' ≠ b) :
    List.lookup b' (stOf (doDeleteBranch env b s)).branches = List.lookup b' s.branches ∧
    (stOf (doDeleteBranch env b s)).current = s.current := by
  unfold doDeleteBranch gwGuard
  by_cases h : env.failOn (.deleteBranch b) = true
  · simp [h]
  · by_cases h1 : b = s.current
    · subst h1; simp [h]
    · by_cases h2 : b ∈ branchNames s
      · simp [h, h1, h2, lookup_filter_ne s.branches hne]
      · simp [h, h1, h2]

theorem stOf_doReset_lookup {env : Env} {hard : Bool} {base : Nat} {b' : String} {s : St}
    (hne : b' ≠ s.current) :
    List.lookup b' (stOf (doReset env hard base s)).branches = List.lookup b' s.branches ∧
    (stOf (doReset env hard base s)).current = s.current := by
  unfold doReset gwGuard
  by_cases h : env.failOn (if hard then GOp.hardReset base else GOp.softReset base) = true
  · simp [h]
  · simp only [h, Bool.false_eq_true, if_false, issue_parents, curBranch_issue]
    cases hl : List.lookup base s.parents with
    | none => simp [hl]
    | some po =>
      cases po with
      | none => simp [hl]
      | some p =>
        by_cases he : ((curBranch s).dropWhile (fun c => c.hash != p)).isEmpty
        · simp [hl, he]
        · cases hard with
          | false =>
            have hsb : List.lookup b' (setBranch (issue s (GOp.softReset base)) s.current
                ((curBranch s).dropWhile (fun c => c.hash != p))).branches =
                List.lookup b' s.branches :=
              lookup_setBranch_ne (s := issue s (GOp.softReset base)) hne
            simp [hl, he, hsb]
          | true =>
            have hsb : List.lookup b' (setBranch (issue s (GOp.hardReset base)) s.current
                ((curBranch s).dropWhile (fun c => c.hash != p))).branches =
                List.lookup b' s.branches :=
              lookup_setBranch_ne (s := issue s (GOp.hardReset base)) hne
            simp [hl, he, hsb]

theorem stOf_doCommit_lookup {env : Env} {msg : String} {b' : String} {s : St}
    (hne : b' ≠ s.current) :
    List.lookup b' (stOf (doCommit env msg s)).branches = List.lookup b' s.branches ∧
    (stOf (doCommit env msg s)).current = s.current := by
  unfold doCommit gwGuard
  by_cases h : env.failOn (.commitOp msg) = true
  · simp [h]
  · simp only [h, Bool.false_eq_true, if_false, issue_staged]
    cases hl : s.staged with
    | nil => simp [hl]
    | cons a t =>
      have hnc : List.lookup b' (newCommitOn (issue s (GOp.commitOp msg)) (a :: t) msg).branches =
          List.lookup b' s.branches :=
        lookup_newCommitOn_ne (s := issue s (GOp.commitOp msg)) hne
      simp [hl, hnc]

theorem stOf_doCherryPick_lookup {env : Env} {hsh : Nat} {b' : String} {s : St}
    (hne : b' ≠ s.current) :
    List.lookup b' (stOf (doCherryPick env hsh s)).branches = List.lookup b' s.branches ∧
    (stOf (doCherryPick env hsh s)).current = s.current := by
  unfold doCherryPick gwGuard
  by_cases h : env.failOn (.cherryPick hsh) = true
  · simp [h]
  · have hlo : lookupObj (issue s (.cherryPick hsh)) hsh = lookupObj s hsh := rfl
    simp only [h, Bool.false_eq_true, if_false, hlo]
    cases hl : lookupObj s hsh with
    | none => simp [hl]
    | some c =>
      have hnc : List.lookup b' (newCommitOn (issue s (GOp.cherryPick hsh)) c.change c.message).branches =
          List.lookup b' s.branches :=
        lookup_newCommitOn_ne (s := issue s (GOp.cherryPick hsh)) hne
      simp [hl, hnc]

theorem cherryPickAll_lookup {env : Env} {b' : String} : ∀ (l : List Nat) (s : St),
    b' ≠ s.current →
    List.lookup b' (stOf (cherryPickAll env l s)).branches = List.lookup b' s.branches ∧
    (stOf (cherryPickAll env l s)).current = s.current
  | [], s, hne => by unfold cherryPickAll; exact ⟨rfl, rfl⟩
  | h :: t, s, hne => by
    unfold cherryPickAll
    have hstep := @stOf_doCherryPick_lookup env h _ s hne
    cases hc : doCherryPick env h s with
    | error ep =>
      obtain ⟨e, sE⟩ := ep
      rw [hc] at hstep
      simpa using hstep
    | ok p =>
      obtain ⟨u, s₁⟩ := p
      rw [hc] at hstep
      simp only [stOf] at hstep
      have hrec := @cherryPickAll_lookup env b' t s₁ (hstep.2 ▸ hne)
      simp only [bindR_ok]
      exact ⟨hrec.1.trans hstep.1, hrec.2.trans hstep.2⟩

theorem gpReconstruct_lookup {env : Env} {commits : List Nat} {msg : String} {b' : String}
    {s : St} (hne : b' ≠ s.current) :
    List.lookup b' (stOf (gpReconstruct env commits msg s)).branches = List.lookup b' s.branches ∧
    (stOf (gpReconstruct env commits msg s)).current = s.current := by
  simp only [gpReconstruct]
  have h1 := @stOf_doReset_lookup env true
    ((commits.getLast?).getD 0) _ s hne
  cases hr : doReset env true ((commits.getLast?).getD 0) s with
  | error ep =>
    obtain ⟨e, sE⟩ := ep
    rw [hr] at h1
    simpa using h1
  | ok p =>
    obtain ⟨u, s₁⟩ := p
    rw [hr] at h1
    simp only [stOf] at h1
    simp only [bindR_ok]
    have h2 := @cherryPickAll_lookup env b' commits.reverse s₁ (h1.2 ▸ hne)
    cases hcp : cherryPickAll env commits.reverse s₁ with
    | error ep =>
      obtain ⟨e, sE⟩ := ep
      rw [hcp] at h2
      simp only [stOf] at h2 ⊢
      exact ⟨h2.1.trans h1.1, h2.2.trans h1.2⟩
    | ok p2 =>
      obtain ⟨u2, s₂⟩ := p2
      rw [hcp] at h2
      simp only [stOf] at h2
      simp only [bindR_ok]
      have h3 := @stOf_doReset_lookup env false
        ((commits.getLast?).getD 0) _ s₂ ((h2.2.trans h1.2) ▸ hne)
      cases hr2 : doReset env false ((commits.getLast?).getD 0) s₂ with
      | error ep =>
        obtain ⟨e, sE⟩ := ep
        rw [hr2] at h3
        simp only [stOf] at h3 ⊢
        exact ⟨(h3.1.trans h2.1).trans h1.1, (h3.2.trans h2.2).trans h1.2⟩
      | ok p3 =>
        obtain ⟨u3, s₃⟩ := p3
        rw [hr2] at h3
        simp only [stOf] at h3
        simp only [bindR_ok]
        have h4 := @stOf_doCommit_lookup env msg _ s₃
          (((h3.2.trans h2.2).trans h1.2) ▸ hne)
        cases hcm : doCommit env msg s₃ with
        | error ep =>
          obtain ⟨e, sE⟩ := ep
          rw [hcm] at h4
          simp only [stOf] at h4 ⊢
          exact ⟨((h4.1.trans h3.1).trans h2.1).trans h1.1,
            ((h4.2.trans h3.2).trans h2.2).trans h1.2⟩
        | ok p4 =>
          obtain ⟨u4, s₄⟩ := p4
          rw [hcm] at h4
          simp only [stOf] at h4
          simp only [bindR_ok]
          have h5 := @stOf_doRevparse_coreEq env s₄
          refine ⟨?_, ?_⟩
          · rw [h5.1]
            exact ((h4.1.trans h3.1).trans h2.1).trans h1.1
          · rw [h5.2.1]
            exact ((h4.2.trans h3.2).trans h2.2).trans h1.2

theorem gpCatch_lookup {env : Env} {cb tb : String} {e : GitErr} {s : St} {b' : String}
    (hne : b' ≠ tb) :
    List.lookup b' (stOf (gpCatch env cb tb e s)).branches = List.lookup b' s.branches := by
  have h1 := @stOf_doCheckout_branches env cb s
  unfold gpCatch
  split
  · rename_i e2 heq
    rw [heq] at h1
    rw [h1.1]
  · rename_i u s₁ heq
    rw [heq] at h1
    simp only [stOf] at h1
    have h2 := @stOf_doDeleteBranch_lookup env tb _ s₁ hne
    split
    · rename_i e3 s₂ heq2
      rw [heq2] at h2
      simp only [stOf] at h2 ⊢
      exact h2.1.trans (congrArg (fun l => List.lookup b' l) h1.1)
    · rename_i u2 s₂ heq2
      rw [heq2] at h2
      simp only [stOf] at h2 ⊢
      exact h2.1.trans (congrArg (fun l => List.lookup b' l) h1.1)

theorem gpCatch_traceExt {env : Env} {cb tb : String} {e : GitErr} {s : St} :
    ∃ l, (stOf (gpCatch env cb tb e s)).trace = s.trace ++ l := by
  obtain ⟨-, l, hl, -⟩ := @guardSafe_gpCatch env cb tb e s
  exact ⟨l, hl⟩

@[simp] theorem tempName_issue (s : St) (op : GOp) : tempName (issue s op) = tempName s := rfl

theorem doBranchQuery_inv {env : Env} {s : St} {cb : String} {s1 : St}
    (h : doBranchQuery env s = .ok (cb, s1)) :
    cb = s.current ∧ s1 = issue s .branchQuery := by
  unfold doBranchQuery gwGuard at h
  by_cases hf : env.failOn .branchQuery = true
  · simp [hf] at h
  · simp [hf] at h
    exact ⟨h.1.symm, h.2.symm⟩

theorem doLog_inv {env : Env} {mc : Option Nat} {s : St} {lg : List Commit} {s1 : St}
    (h : doLog env mc s = .ok (lg, s1)) : s1 = issue s (.logRead mc) := by
  unfold doLog gwGuard at h
  by_cases hf : env.failOn (.logRead mc) = true
  · simp [hf] at h
  · cases mc <;> simp [hf] at h <;> exact h.2.symm

theorem doCheckoutNew_inv {env : Env} {b : String} {s : St} {u : Unit} {s3 : St}
    (h : doCheckoutNew env b s = .ok (u, s3)) :
    b ∉ branchNames s ∧
    s3 = { issue s (.createBranch b) with
      branches := (b, curBranch s) :: s.branches, current := b } := by
  unfold doCheckoutNew gwGuard at h
  by_cases hf : env.failOn (.createBranch b) = true
  · simp [hf] at h
  · by_cases hb : b ∈ branchNames s
    · simp [hf, hb] at h
    · simp [hf, hb] at h
      refine ⟨hb, ?_⟩
      rw [← h]
      exact rfl

theorem doCheckout_inv {env : Env} {b : String} {s : St} {u : Unit} {s5 : St}
    (h : doCheckout env b s = .ok (u, s5)) :
    b ∈ branchNames s ∧ s5 = { issue s (.checkoutBranch b) with current := b } := by
  unfold doCheckout gwGuard at h
  by_cases hf : env.failOn (.checkoutBranch b) = true
  · simp [hf] at h
  · by_cases hb : b ∈ branchNames s
    · simp [hf, hb] at h
      refine ⟨hb, ?_⟩
      rw [← h]
      exact rfl
    · simp [hf, hb] at h

theorem stOf_doReset_trace {env : Env} {hard : Bool} {base : Nat} {s : St} :
    (stOf (doReset env hard base s)).trace =
      s.trace ++ [(s.current, if hard then GOp.hardReset base else GOp.softReset base)] := by
  unfold doReset gwGuard
  by_cases h : env.failOn (if hard then GOp.hardReset base else GOp.softReset base) = true
  · simp [h]
  · simp only [h, Bool.false_eq_true, if_false, issue_parents, curBranch_issue]
    cases hl : List.lookup base s.parents with
    | none => simp [hl]
    | some po =>
      cases po with
      | none => simp [hl]
      | some p =>
        by_cases he : ((curBranch s).dropWhile (fun c => c.hash != p)).isEmpty
        · simp [hl, he]
        · cases hard <;> simp [hl, he]

/-- General-path rollback guarantee (C2): a run of the general path that
fails while never issuing a hard reset on the original (checked-out)
branch -- which covers every failure during the later-commit analysis,
the temporary-branch creation, and all of the reconstruction steps on
the temporary branch (the hard reset there, the selected-commit
cherry-picks, the soft reset, the squash commit), i.e. every failure
strictly before the original branch is hard-reset -- leaves the
original branch ref, and hence its tip identity, exactly as it was
before the run began. -/
theorem rollback_preserves_original_tip (env : Env) (commits : List Nat) (msg : String)
    (s : St) (e' : GitErr) (s' : St)
    (hTempNe : tempName s ≠ s.current)
    (hrun : squashNonConsecutiveCommits env commits msg s = .error (e', s'))
    (hnoreset : ∀ x, (s.current, GOp.hardReset x) ∉ s'.trace.drop s.trace.length) :
    List.lookup s.current s'.branches = List.lookup s.current s.branches := by
  have hrun' : (bindR (doBranchQuery env s) fun currentBranch s1 =>
      bindR (doLog env none s1) fun logAll s2 =>
      bindR (doCheckoutNew env (tempName s1) s2) fun _ s3 =>
      match (bindR (gpReconstruct env commits msg s3) fun newCommit s4 =>
          gpTransplant env currentBranch (tempName s1) ((commits.getLast?).getD 0) newCommit
            ((logAll.takeWhile (fun c => c.hash != commits.headD 0)).map
              (fun c => (c.hash, c.message))) s4) with
      | .ok r => .ok r
      | .error (e, sE) => gpCatch env currentBranch (tempName s1) e sE) = .error (e', s') := hrun
  clear hrun
  cases hq : doBranchQuery env s with
  | error ep =>
    obtain ⟨e, sE⟩ := ep
    rw [hq] at hrun'
    simp only [bindR_error, Except.error.injEq, Prod.mk.injEq] at hrun'
    obtain ⟨rfl, rfl⟩ := hrun'
    have hce := @stOf_doBranchQuery_coreEq env s
    rw [hq] at hce
    simp only [stOf] at hce
    rw [hce.1]
  | ok p =>
    obtain ⟨cb, s1⟩ := p
    obtain ⟨rfl, rfl⟩ := doBranchQuery_inv hq
    rw [hq] at hrun'
    simp only [bindR_ok] at hrun'
    cases hlog : doLog env none (issue s .branchQuery) with
    | error ep =>
      obtain ⟨e, sE⟩ := ep
      rw [hlog] at hrun'
      simp only [bindR_error, Except.error.injEq, Prod.mk.injEq] at hrun'
      obtain ⟨rfl, rfl⟩ := hrun'
      have hce := @stOf_doLog_coreEq env none (issue s .branchQuery)
      rw [hlog] at hce
      simp only [stOf] at hce
      rw [hce.1]
      rfl
    | ok p2 =>
      obtain ⟨lg, s2⟩ := p2
      have hs2 := doLog_inv hlog
      subst hs2
      rw [hlog] at hrun'
      simp only [bindR_ok] at hrun'
      cases hcn : doCheckoutNew env (tempName (issue s .branchQuery))
          (issue (issue s .branchQuery) (.logRead none)) with
      | error ep =>
        obtain ⟨e, sE⟩ := ep
        rw [hcn] at hrun'
        simp only [bindR_error, Except.error.injEq, Prod.mk.injEq] at hrun'
        obtain ⟨rfl, rfl⟩ := hrun'
        have hlk := @stOf_doCheckoutNew_lookup env
          (tempName (issue s .branchQuery)) s.current
          (issue (issue s .branchQuery) (.logRead none))
          (by simpa using Ne.symm hTempNe)
        rw [hcn] at hlk
        simp only [stOf] at hlk
        simpa using hlk.1
      | ok p3 =>
        obtain ⟨u3, s3⟩ := p3
        obtain ⟨hTempNB, hs3⟩ := doCheckoutNew_inv hcn
        rw [hcn] at hrun'
        simp only [bindR_ok, tempName_issue] at hrun'
        have hs3cur : s3.current = tempName s := by rw [hs3]; rfl
        have hs3lk : List.lookup s.current s3.branches = List.lookup s.current s.branches := by
          rw [hs3]
          exact lookup_cons_ne (Ne.symm hTempNe)
        have hs3tr : s3.trace = s.trace ++ [(s.current, GOp.branchQuery),
            (s.current, GOp.logRead none),
            (s.current, GOp.createBranch (tempName s))] := by
          rw [hs3]
          simp [issue, tempName]
        have hneq3 : s.current ≠ s3.current := by
          rw [hs3cur]
          exact Ne.symm hTempNe
        cases hrec : gpReconstruct env commits msg s3 with
        | error ep =>
          obtain ⟨eR, sR⟩ := ep
          rw [hrec] at hrun'
          simp only [bindR_error] at hrun'
          replace hrun' : gpCatch env s.current (tempName s) eR sR = .error (e', s') := hrun'
          have hlkR := @gpReconstruct_lookup env commits msg
            s.current s3 hneq3
          rw [hrec] at hlkR
          simp only [stOf] at hlkR
          have hcatch := @gpCatch_lookup env s.current (tempName s)
            eR sR s.current (Ne.symm hTempNe)
          have hs' : s' = stOf (gpCatch env s.current (tempName s) eR sR) := by
            cases hg : gpCatch env s.current (tempName s) eR sR with
            | error epg =>
              obtain ⟨eg, sg⟩ := epg
              rw [hg] at hrun'
              simp only [Except.error.injEq, Prod.mk.injEq] at hrun'
              simp [stOf, hrun'.2]
            | ok pg =>
              rw [hg] at hrun'
              simp at hrun'
          rw [hs', hcatch, hlkR.1, hs3lk]
        | ok p4 =>
          obtain ⟨newC, s4⟩ := p4
          rw [hrec] at hrun'
          simp only [bindR_ok] at hrun'
          have hlk4 := @gpReconstruct_lookup env commits msg
            s.current s3 hneq3
          rw [hrec] at hlk4
          simp only [stOf] at hlk4
          obtain ⟨-, lrec, hrectr, -⟩ := @guardSafe_gpReconstruct env
            commits msg s3
          rw [hrec] at hrectr
          simp only [stOf] at hrectr
          have htr' : (bindR (doCheckout env s.current s4) fun _ s5 =>
              bindR (doReset env true ((commits.getLast?).getD 0) s5) fun _ s6 =>
              bindR (doCherryPick env newC s6) fun _ s7 =>
              bindR (cherryPickAll env ((((lg.takeWhile (fun c => c.hash != commits.headD 0)).map
                (fun c => (c.hash, c.message))).reverse).map (·.1)) s7) fun _ s8 =>
              doDeleteBranch env (tempName s) s8) = gpTransplant env s.current (tempName s)
                ((commits.getLast?).getD 0) newC
                ((lg.takeWhile (fun c => c.hash != commits.headD 0)).map
                  (fun c => (c.hash, c.message))) s4 := rfl
          rw [← htr'] at hrun'
          cases hck : doCheckout env s.current s4 with
          | error ep =>
            obtain ⟨eC, sC⟩ := ep
            rw [hck] at hrun'
            simp only [bindR_error] at hrun'
            replace hrun' : gpCatch env s.current (tempName s) eC sC = .error (e', s') := hrun'
            have hbC := @stOf_doCheckout_branches env s.current s4
            rw [hck] at hbC
            simp only [stOf] at hbC
            have hcatch := @gpCatch_lookup env s.current (tempName s)
              eC sC s.current (Ne.symm hTempNe)
            have hs' : s' = stOf (gpCatch env s.current (tempName s) eC sC) := by
              cases hg : gpCatch env s.current (tempName s) eC sC with
              | error epg =>
                obtain ⟨eg, sg⟩ := epg
                rw [hg] at hrun'
                simp only [Except.error.injEq, Prod.mk.injEq] at hrun'
                simp [stOf, hrun'.2]
              | ok pg =>
                rw [hg] at hrun'
                simp at hrun'
            rw [hs', hcatch]
            rw [congrArg (fun l => List.lookup s.current l) hbC.1]
            rw [hlk4.1, hs3lk]
          | ok p5 =>
            obtain ⟨u5, s5⟩ := p5
            obtain ⟨-, hs5⟩ := doCheckout_inv hck
            exfalso
            have hs5cur : s5.current = s.current := by rw [hs5]
            have hs5tr : s5.trace = s4.trace ++ [(s4.current, GOp.checkoutBranch s.current)] := by
              rw [hs5]
              simp [issue]
            rw [hck] at hrun'
            simp only [bindR_ok] at hrun'
            have hrtr := @stOf_doReset_trace env true
              ((commits.getLast?).getD 0) s5
            cases hres : doReset env true ((commits.getLast?).getD 0) s5 with
            | error ep =>
              obtain ⟨eR2, sR2⟩ := ep
              rw [hres] at hrun' hrtr
              simp only [bindR_error] at hrun'
              replace hrun' : gpCatch env s.current (tempName s) eR2 sR2 = .error (e', s') := hrun'
              simp only [stOf] at hrtr
              obtain ⟨lc, hlc⟩ := @gpCatch_traceExt env s.current
                (tempName s) eR2 sR2
              have hs' : s' = stOf (gpCatch env s.current (tempName s) eR2 sR2) := by
                cases hg : gpCatch env s.current (tempName s) eR2 sR2 with
                | error epg =>
                  obtain ⟨eg, sg⟩ := epg
                  rw [hg] at hrun'
                  simp only [Except.error.injEq, Prod.mk.injEq] at hrun'
                  simp [stOf, hrun'.2]
                | ok pg =>
                  rw [hg] at hrun'
                  simp at hrun'
              refine hnoreset ((commits.getLast?).getD 0) ?_
              rw [hs', hlc, hrtr, hs5tr, hrectr, hs3tr, hs5cur]
              simp [List.append_assoc, List.drop_left']
            | ok p6 =>
              obtain ⟨u6, s6⟩ := p6
              rw [hres] at hrun' hrtr
              simp only [bindR_ok] at hrun'
              simp only [stOf] at hrtr
              have GSrest : GuardSafe s6 (bindR (doCherryPick env newC s6) fun _ s7 =>
                  bindR (cherryPickAll env ((((lg.takeWhile (fun c => c.hash !=
                    commits.headD 0)).map (fun c => (c.hash, c.message))).reverse).map (·.1))
                    s7) fun _ s8 =>
                  doDeleteBranch env (tempName s) s8) :=
                guardSafe_bindR guardSafe_doCherryPick (fun _ s7 _ =>
                  guardSafe_bindR (guardSafe_cherryPickAll _ _) (fun _ s8 _ =>
                    guardSafe_doDeleteBranch))
              obtain ⟨-, lrest, hlrest, -⟩ := GSrest
              cases hrest : (bindR (doCherryPick env newC s6) fun _ s7 =>
                  bindR (cherryPickAll env ((((lg.takeWhile (fun c => c.hash !=
                    commits.headD 0)).map (fun c => (c.hash, c.message))).reverse).map (·.1))
                    s7) fun _ s8 =>
                  doDeleteBranch env (tempName s) s8) with
              | ok pr =>
                rw [hrest] at hrun'
                replace hrun' : Except.ok pr = Except.error (e', s') := hrun'
                simp at hrun'
              | error epr =>
                obtain ⟨eB, sB⟩ := epr
                rw [hrest] at hrun' hlrest
                replace hrun' : gpCatch env s.current (tempName s) eB sB = .error (e', s') := hrun'
                simp only [stOf] at hlrest
                obtain ⟨lc, hlc⟩ := @gpCatch_traceExt env s.current
                  (tempName s) eB sB
                have hs' : s' = stOf (gpCatch env s.current (tempName s) eB sB) := by
                  cases hg : gpCatch env s.current (tempName s) eB sB with
                  | error epg =>
                    obtain ⟨eg, sg⟩ := epg
                    rw [hg] at hrun'
                    simp only [Except.error.injEq, Prod.mk.injEq] at hrun'
                    simp [stOf, hrun'.2]
                  | ok pg =>
                    rw [hg] at hrun'
                    simp at hrun'
                refine hnoreset ((commits.getLast?).getD 0) ?_
                rw [hs', hlc, hlrest, hrtr, hs5tr, hrectr, hs3tr, hs5cur]
                simp [List.append_assoc, List.drop_left']

/-! ### Concrete repository fixtures -/

def mkDemoCommit (h : Nat) : Commit := ⟨h, [h], "m"⟩

def demoCommits : List Commit :=
  [mkDemoCommit 5, mkDemoCommit 4, mkDemoCommit 3, mkDemoCommit 2, mkDemoCommit 1]

def demoParents : List (Nat × Option Nat) :=
  [(5, some 4), (4, some 3), (3, some 2), (2, some 1), (1, none)]

/-- Scenario repository: branch `main` holding [C5, C4, C3, C2, C1]
(newest first), clean working tree. -/
def demoSt : St :=
  { branches := [("main", demoCommits)], current := "main", objects := demoCommits,
    parents := demoParents, dirty := 0, stashSt := [], staged := [], nextHash := 6,
    now := 0, trace := [] }

/-- The scenario repository with three uncommitted files. -/
def demoDirtySt : St := { demoSt with dirty := 3 }

/-- Failure-free environment. -/
def envOK : Env := ⟨fun _ => false⟩

/-- Environment in which the cherry-pick of commit 2 conflicts and the
cleanup checkout of `main` also fails. -/
def envCpCoFail : Env := ⟨fun op => op == .cherryPick 2 || op == .checkoutBranch "main"⟩

/-- Environment in which only the cherry-pick of commit 2 conflicts. -/
def envCpFail : Env := ⟨fun op => op == .cherryPick 2⟩

/-- A state whose branch tip has moved since the history read that the
selection [4, 2] was derived from: commits 4 and 2 no longer exist. -/
def staleSt : St :=
  { branches := [("main", [mkDemoCommit 9, mkDemoCommit 5, mkDemoCommit 3, mkDemoCommit 1])],
    current := "main",
    objects := [mkDemoCommit 9, mkDemoCommit 5, mkDemoCommit 3, mkDemoCommit 1],
    parents := [(9, some 5), (5, some 3), (3, some 1), (1, none)],
    dirty := 2, stashSt := [], staged := [], nextHash := 10, now := 0, trace := [] }

/-- The error of a failed run, if any. -/
def errOf {α : Type} : GRes α → Option GitErr
  | .error (e, _) => some e
  | .ok _ => none

/-- C1, evaluated at the spec's own scenario: on [C5, C4, C3, C2, C1]
with selection {C4, C2} (passed newest first), the non-dry squash takes
the general path and succeeds (exit 0), but the resulting branch has
only three commits: the interleaved unselected commit C3 is dropped
entirely -- its identity (hash 3) and its content (change 3) are both
absent from the result, and the surviving changesets are exactly
[[5], [2, 4], [1]].  The required result [C5, C3, C_new, C1] with C3
preserved does not hold. -/
theorem interleaved_commit_lost :
    (squashCommits envOK [4, 2] "squash" false demoSt).1.1 = 0 ∧
    (getBranch (squashCommits envOK [4, 2] "squash" false demoSt).2 "main").length = 3 ∧
    (3 : Nat) ∉ ((getBranch (squashCommits envOK [4, 2] "squash" false demoSt).2
      "main").flatMap (·.change)) ∧
    (3 : Nat) ∉ ((getBranch (squashCommits envOK [4, 2] "squash" false demoSt).2
      "main").map (·.hash)) ∧
    ((getBranch (squashCommits envOK [4, 2] "squash" false demoSt).2 "main").map (·.change))
      = [[5], [2, 4], [1]] := by
  decide

/-- C5 counterexample: with a conflicting cherry-pick of commit 2 and a
failing cleanup checkout, the general path's handler aborts at the
checkout: the surfaced error is the checkout failure, not the original
cherry-pick conflict (which was issued, as the trace shows), and the
temporary branch is left behind.  The checkout is therefore not
best-effort. -/
theorem rollback_checkout_not_best_effort :
    errOf (squashNonConsecutiveCommits envCpCoFail [4, 2] "m" demoSt) =
      some (.injected (.checkoutBranch "main")) ∧
    ("temp-squash-0", GOp.cherryPick 2) ∈
      (stOf (squashNonConsecutiveCommits envCpCoFail [4, 2] "m" demoSt)).trace ∧
    errOf (squashNonConsecutiveCommits envCpCoFail [4, 2] "m" demoSt) ≠
      some (.injected (.cherryPick 2)) ∧
    "temp-squash-0" ∈ branchNames (stOf (squashNonConsecutiveCommits envCpCoFail
      [4, 2] "m" demoSt)) := by
  decide

theorem stOf_doDeleteBranch_trace {env : Env} {b : String} {s : St} :
    (stOf (doDeleteBranch env b s)).trace = s.trace ++ [(s.current, GOp.deleteBranch b)] := by
  unfold doDeleteBranch gwGuard
  by_cases h : env.failOn (.deleteBranch b) = true
  · simp [h]
  · by_cases h1 : b = s.current
    · subst h1; simp [h]
    · by_cases h2 : b ∈ branchNames s
      · simp [h, h1, h2]
      · simp [h, h1, h2]

/-- C5 amended: when a step inside the try block fails with error `e`
and the cleanup checkout of the original branch succeeds, the handler
issues the temporary-branch force-delete (best-effort: either outcome is
suppressed) and re-raises the original error `e`.  (When the cleanup
checkout itself fails, its error propagates instead -- see the
counterexample.) -/
theorem rollback_cleanup_reraises_original (env : Env) (cb tb : String) (e : GitErr)
    (s : St) (u : Unit) (s1 : St)
    (hok : doCheckout env cb s = .ok (u, s1)) :
    ∃ s2, gpCatch env cb tb e s = .error (e, s2) ∧
      (s1.current, GOp.deleteBranch tb) ∈ s2.trace := by
  have hres : gpCatch env cb tb e s = (match doDeleteBranch env tb s1 with
      | .error (_, s2) => .error (e, s2)
      | .ok (_, s2) => .error (e, s2)) := by
    unfold gpCatch
    rw [hok]
  have htr := @stOf_doDeleteBranch_trace env tb s1
  rw [hres]
  cases hd : doDeleteBranch env tb s1 with
  | error ep =>
    obtain ⟨e3, s2⟩ := ep
    rw [hd] at htr
    simp only [stOf] at htr
    exact ⟨s2, rfl, by rw [htr]; simp⟩
  | ok p =>
    obtain ⟨u2, s2⟩ := p
    rw [hd] at htr
    simp only [stOf] at htr
    exact ⟨s2, rfl, by rw [htr]; simp⟩

/-- A concrete mid-rollback state: the temporary branch exists and is
checked out. -/
def rollbackSt : St :=
  { demoSt with
      branches := ("temp-squash-0", [mkDemoCommit 1]) :: demoSt.branches
      current := "temp-squash-0" }

/-- Witness for the amended C5 rollback behaviour at a concrete input:
with only the cherry-pick of commit 2 conflicting, the cleanup checkout
succeeds, so the handler re-raises the cherry-pick conflict after
attempting the temporary-branch deletion. -/
theorem rollback_cleanup_reraises_original_witness :
    ∃ s2, gpCatch envCpFail "main" "temp-squash-0" (.injected (.cherryPick 2)) rollbackSt =
      .error (.injected (.cherryPick 2), s2) ∧
      ("main", GOp.deleteBranch "temp-squash-0") ∈ s2.trace := by
  refine rollback_cleanup_reraises_original envCpFail "main" "temp-squash-0"
    (.injected (.cherryPick 2)) rollbackSt ()
    ({ issue rollbackSt (.checkoutBranch "main") with current := "main" }) ?_
  rfl

/-- C6 counterexample: with the stale selection [4, 2] (neither hash is
in the current history) and a dirty tree, the orchestrator still issues
the mutating stash save and creates the temporary branch -- no
re-validation happens before mutating -- and the run then dies inside
the general path (exit 1) leaving the user's changes in the stash. -/
theorem stale_selection_still_mutates :
    ((4 : Nat) ∉ (curBranch staleSt).map (·.hash)) ∧
    ((2 : Nat) ∉ (curBranch staleSt).map (·.hash)) ∧
    ("main", GOp.stashSave) ∈ (squashCommits envOK [4, 2] "m" false staleSt).2.trace ∧
    ("main", GOp.createBranch "temp-squash-0") ∈
      (squashCommits envOK [4, 2] "m" false staleSt).2.trace ∧
    (squashCommits envOK [4, 2] "m" false staleSt).1.1 = 1 ∧
    (squashCommits envOK [4, 2] "m" false staleSt).2.stashSt = [2] := by
  decide

/-! ### Trace extension -/

/-- The trace only ever grows. -/
def TrExt (s : St) {α : Type} (r : GRes α) : Prop :=
  ∃ l, (stOf r).trace = s.trace ++ l

theorem trExt_of_guardSafe {s : St} {α : Type} {r : GRes α} (h : GuardSafe s r) :
    TrExt s r := by
  obtain ⟨-, l, hl, -⟩ := h
  exact ⟨l, hl⟩

theorem trExt_bindR {α β : Type} {s : St} {x : GRes α} {g : α → St → GRes β}
    (hx : TrExt s x) (hg : ∀ a s₁, x = .ok (a, s₁) → TrExt s₁ (g a s₁)) :
    TrExt s (bindR x g) := by
  cases x with
  | error e => exact hx
  | ok p =>
    obtain ⟨a, s₁⟩ := p
    obtain ⟨l₁, hl₁⟩ := hx
    obtain ⟨l₂, hl₂⟩ := hg a s₁ rfl
    refine ⟨l₁ ++ l₂, ?_⟩
    simp only [bindR_ok]
    rw [hl₂]
    simp only [stOf] at hl₁
    rw [hl₁, List.append_assoc]

theorem trExt_doStashSave {env : Env} {s : St} : TrExt s (doStashSave env s) := by
  unfold doStashSave gwGuard
  by_cases h : env.failOn .stashSave = true <;> simp [h, TrExt]

theorem trExt_doStashPop {env : Env} {s : St} : TrExt s (doStashPop env s) := by
  unfold doStashPop gwGuard
  by_cases h : env.failOn .stashPop = true
  · simp [h, TrExt]
  · simp only [h, Bool.false_eq_true, if_false, issue_stashSt]
    cases hs : s.stashSt <;> simp [hs, TrExt]

theorem trExt_squashPath {env : Env} {commits : List Nat} {msg : String} {u : Bool} {s : St} :
    TrExt s (if u = true then squashLatestCommits env commits msg s
      else squashNonConsecutiveCommits env commits msg s) := by
  cases u
  · simpa using trExt_of_guardSafe guardSafe_general
  · simpa using trExt_of_guardSafe guardSafe_fast

/-- C6 (amended): the orchestrator performs no re-validation of the
selection: for every selection -- stale or not -- and dirty tree, the
non-dry run issues the read of `status()` and then immediately the
mutating stash save, before any further history read could observe that
the tip has moved. -/
theorem mutation_precedes_any_revalidation (env : Env) (commits : List Nat) (msg : String)
    (s : St) (hStatus : env.failOn .statusRead = false)
    (hSave : env.failOn .stashSave = false) (hd : 0 < s.dirty) :
    ∃ l, (squashCommits env commits msg false s).2.trace =
      s.trace ++ [(s.current, GOp.statusRead), (s.current, GOp.stashSave)] ++ l := by
  obtain ⟨s1, hstat, htr1, hst1, hd1, hc1, hb1⟩ := @doStatus_ok env s hStatus
  obtain ⟨s2, hsv, htr2, hst2, hc2, hb2⟩ := doStashSave_ok (s := s1) hSave
  unfold squashCommits squashBody
  rw [hstat]
  simp only [bindR_ok, Bool.false_eq_true, if_false, if_pos hd]
  rw [hsv]
  simp only [bindR_ok]
  have hrest : TrExt s2 (bindR (areCommitsLatestAndConsecutive env commits s2)
      fun useSimpleApproach s3 =>
      bindR (if useSimpleApproach = true then squashLatestCommits env commits msg s3
        else squashNonConsecutiveCommits env commits msg s3) fun _ s4 =>
      bindR (doStashPop env s4) fun _ s5 =>
      .ok ((none : Option DryRunReport), s5)) := by
    refine trExt_bindR (trExt_of_guardSafe guardSafe_classifier) (fun u s3 _ => ?_)
    refine trExt_bindR trExt_squashPath (fun _ s4 _ => ?_)
    exact trExt_bindR trExt_doStashPop (fun _ s5 _ => ⟨[], by simp⟩)
  obtain ⟨l, hl⟩ := hrest
  have hpre : s2.trace = s.trace ++ [(s.current, GOp.statusRead), (s1.current, GOp.stashSave)] := by
    rw [htr2, htr1]
    simp
  rw [hc1] at hpre
  cases hX : (bindR (areCommitsLatestAndConsecutive env commits s2)
      fun useSimpleApproach s3 =>
      bindR (if useSimpleApproach = true then squashLatestCommits env commits msg s3
        else squashNonConsecutiveCommits env commits msg s3) fun _ s4 =>
      bindR (doStashPop env s4) fun _ s5 =>
      .ok ((none : Option DryRunReport), s5)) with
  | ok p =>
    obtain ⟨r, sF⟩ := p
    rw [hX] at hl
    simp only [stOf] at hl
    refine ⟨l, ?_⟩
    rw [hl, hpre]
  | error ep =>
    obtain ⟨e, sF⟩ := ep
    rw [hX] at hl
    simp only [stOf] at hl
    refine ⟨l, ?_⟩
    rw [hl, hpre]

instance {ε α : Type} [DecidableEq ε] [DecidableEq α] : DecidableEq (Except ε α) := fun a b =>
  match a, b with
  | .ok x, .ok y =>
    if h : x = y then isTrue (by rw [h]) else isFalse (by simp [h])
  | .error x, .error y =>
    if h : x = y then isTrue (by rw [h]) else isFalse (by simp [h])
  | .ok _, .error _ => isFalse (by simp)
  | .error _, .ok _ => isFalse (by simp)

/-- Witness for the rollback guarantee (C2) at a concrete input: with a
conflicting cherry-pick of commit 2, the general path fails before the
original branch is hard-reset, and `main` is exactly as before. -/
theorem rollback_preserves_original_tip_witness :
    List.lookup "main" (stOf (squashNonConsecutiveCommits envCpFail [4, 2] "m"
      demoSt)).branches = List.lookup "main" demoSt.branches := by
  refine rollback_preserves_original_tip envCpFail [4, 2] "m" demoSt
    (.injected (.cherryPick 2))
    (stOf (squashNonConsecutiveCommits envCpFail [4, 2] "m" demoSt))
    (by decide) (by decide) ?_
  intro x
  have htr : (stOf (squashNonConsecutiveCommits envCpFail [4, 2] "m" demoSt)).trace.drop
      demoSt.trace.length = [("main", GOp.branchQuery), ("main", GOp.logRead none),
      ("main", GOp.createBranch "temp-squash-0"), ("temp-squash-0", GOp.hardReset 2),
      ("temp-squash-0", GOp.cherryPick 2), ("temp-squash-0", GOp.checkoutBranch "main"),
      ("main", GOp.deleteBranch "temp-squash-0")] := by decide
  rw [htr]
  simp [demoSt]

/-- Witness for the amended re-validation claim (C6) at the stale
state. -/
theorem mutation_precedes_any_revalidation_witness :
    ∃ l, (squashCommits envOK [4, 2] "m" false staleSt).2.trace =
      staleSt.trace ++ [("main", GOp.statusRead), ("main", GOp.stashSave)] ++ l :=
  mutation_precedes_any_revalidation envOK [4, 2] "m" staleSt rfl rfl (by decide)

/-- Witness for the dry-run frame property (C7) at a concrete dirty
state. -/
theorem dry_run_read_only_witness :
    (squashCommits envOK [4, 2] "m" true demoDirtySt).2.branches = demoDirtySt.branches ∧
    (squashCommits envOK [4, 2] "m" true demoDirtySt).2.dirty = demoDirtySt.dirty ∧
    (0 < demoDirtySt.dirty) := by
  have h := dry_run_read_only envOK [4, 2] "m" demoDirtySt
  exact ⟨h.2.1, h.2.2.2.1, by decide⟩

/-- Witness for the working-tree guard (C8) at a concrete dirty state
with the fast-path selection [5, 4]. -/
theorem stash_save_pop_guard_witness :
    ((∃ b, (b, GOp.stashSave) ∈ (squashCommits envOK [5, 4] "m" false
        demoDirtySt).2.trace.drop demoDirtySt.trace.length) ↔ 0 < demoDirtySt.dirty) ∧
    ((∃ b, (b, GOp.stashPop) ∈ (squashCommits envOK [5, 4] "m" false
        demoDirtySt).2.trace.drop demoDirtySt.trace.length) ↔
      0 < demoDirtySt.dirty ∧ (squashCommits envOK [5, 4] "m" false demoDirtySt).1.1 = 0) :=
  stash_save_pop_guard envOK [5, 4] "m" demoDirtySt rfl rfl

/-- Witness for the root-commit edge case (C10): selecting [2, 1] makes
the root commit 1 the oldest selected commit. -/
theorem root_oldest_both_paths_fail_witness :
    (∃ sF, squashLatestCommits envOK [2, 1] "m" demoSt = .error (.badRevision 1, sF) ∧
      sF.branches = demoSt.branches ∧ sF.nextHash = demoSt.nextHash) ∧
    (∃ sG, squashNonConsecutiveCommits envOK [2, 1] "m" demoSt =
        .error (.badRevision 1, sG) ∧
      sG.branches = demoSt.branches ∧ sG.nextHash = demoSt.nextHash) :=
  root_oldest_both_paths_fail envOK [2, 1] "m" demoSt (fun _ => rfl) (by decide)
    (by decide) (by decide) (by decide)

/-! ### Classifier: sort and index lemmas -/

theorem insertSorted_perm (le : Nat → Nat → Bool) (a : Nat) :
    ∀ l : List Nat, (insertSorted le a l).Perm (a :: l)
  | [] => List.Perm.refl _
  | b :: l => by
    unfold insertSorted
    by_cases h : le a b = true
    · simp [h]
    · simp only [h, Bool.false_eq_true, if_false]
      exact ((insertSorted_perm le a l).cons b).trans (List.Perm.swap a b l)

theorem stableSort_perm (le : Nat → Nat → Bool) :
    ∀ l : List Nat, (stableSort le l).Perm l
  | [] => List.Perm.refl _
  | a :: l => by
    unfold stableSort
    exact (insertSorted_perm le a (stableSort le l)).trans ((stableSort_perm le l).cons a)

theorem insertSorted_pairwise {le : Nat → Nat → Bool}
    (htot : ∀ a b, le a b || le b a) (htrans : ∀ a b c, le a b = true → le b c = true → le a c = true)
    {a : Nat} : ∀ {l : List Nat}, l.Pairwise (fun x y => le x y = true) →
    (insertSorted le a l).Pairwise (fun x y => le x y = true)
  | [], _ => by simp [insertSorted]
  | b :: l, hl => by
    unfold insertSorted
    by_cases h : le a b = true
    · simp only [h, if_true]
      refine List.Pairwise.cons ?_ hl
      intro y hy
      rcases List.mem_cons.mp hy with rfl | hy
      · exact h
      · exact htrans a b y h (List.rel_of_pairwise_cons hl hy)
    · simp only [h, Bool.false_eq_true, if_false]
      have hba : le b a = true := by
        have := htot a b
        simp [h] at this
        exact this
      refine List.Pairwise.cons ?_ (insertSorted_pairwise htot htrans hl.of_cons)
      intro y hy
      have hy' := (insertSorted_perm le a l).mem_iff.mp hy
      rcases List.mem_cons.mp hy' with rfl | hy'
      · exact hba
      · exact List.rel_of_pairwise_cons hl hy'

theorem stableSort_pairwise {le : Nat → Nat → Bool}
    (htot : ∀ a b, le a b || le b a) (htrans : ∀ a b c, le a b = true → le b c = true → le a c = true) :
    ∀ l : List Nat, (stableSort le l).Pairwise (fun x y => le x y = true)
  | [] => by simp [stableSort]
  | a :: l => by
    unfold stableSort
    exact insertSorted_pairwise htot htrans (stableSort_pairwise htot htrans l)

/-- Two lists that are permutations of each other, each sorted by a
relation that is antisymmetric on the members, are equal. -/
theorem eq_of_perm_pairwise {α : Type} {r : α → α → Prop} :
    ∀ {l₁ l₂ : List α}, l₁.Perm l₂ → l₁.Pairwise r → l₂.Pairwise r →
    (∀ a ∈ l₂, ∀ b ∈ l₂, r a b → r b a → a = b) → l₁ = l₂
  | [], l₂, hp, _, _, _ => (hp.nil_eq).symm ▸ rfl
  | a :: t₁, l₂, hp, h₁, h₂, hanti => by
    cases l₂ with
    | nil => exact absurd hp.symm (by simp)
    | cons b t₂ =>
      have hab : a = b := by
        have hamem : a ∈ b :: t₂ := hp.mem_iff.mp (by simp)
        have hbmem : b ∈ a :: t₁ := hp.mem_iff.mpr (by simp)
        rcases List.mem_cons.mp hamem with h | hat₂
        · exact h
        · rcases List.mem_cons.mp hbmem with h | hbt₁
          · exact h.symm
          · exact hanti a hamem b (by simp) (List.rel_of_pairwise_cons h₁ hbt₁)
              (List.rel_of_pairwise_cons h₂ hat₂)
      subst hab
      have hp' : t₁.Perm t₂ := hp.cons_inv
      have ht := eq_of_perm_pairwise hp' h₁.of_cons h₂.of_cons
        (fun x hx y hy hxy hyx => hanti x (by simp [hx]) y (by simp [hy]) hxy hyx)
      rw [ht]

theorem jsIndexOf_of_not_mem {recent : List Nat} {a : Nat} (h : a ∉ recent) :
    jsIndexOf recent a = -1 := by
  induction recent with
  | nil => rfl
  | cons x xs ih =>
    unfold jsIndexOf
    have hxa : ¬ x = a := fun hc => h (hc ▸ List.mem_cons_self x xs)
    have hr := ih (fun hc => h (List.mem_cons_of_mem x hc))
    simp [hxa, hr]

theorem jsIndexOf_nonneg_of_mem {recent : List Nat} {a : Nat} (h : a ∈ recent) :
    0 ≤ jsIndexOf recent a := by
  induction recent with
  | nil => exact absurd h (by simp)
  | cons x xs ih =>
    unfold jsIndexOf
    by_cases hxa : x = a
    · simp [hxa]
    · have hmem : a ∈ xs := by
        rcases List.mem_cons.mp h with h | h
        · exact absurd h.symm hxa
        · exact h
      have := ih hmem
      simp only [hxa, if_false]
      have hnotlt : ¬ jsIndexOf xs a < 0 := not_lt.mpr this
      simp [hnotlt]
      omega

theorem jsIndexOf_inj {recent : List Nat} (hnd : recent.Nodup) :
    ∀ {a b : Nat}, a ∈ recent → b ∈ recent →
      jsIndexOf recent a = jsIndexOf recent b → a = b := by
  induction recent with
  | nil => intro a b ha _ _; exact absurd ha (by simp)
  | cons x xs ih =>
    intro a b ha hb heq
    unfold jsIndexOf at heq
    by_cases hxa : x = a <;> by_cases hxb : x = b
    · rw [← hxa, ← hxb]
    · have hbmem : b ∈ xs := by
        rcases List.mem_cons.mp hb with h | h
        · exact absurd h.symm hxb
        · exact h
      have hpos := jsIndexOf_nonneg_of_mem hbmem
      have hnotlt : ¬ jsIndexOf xs b < 0 := not_lt.mpr hpos
      simp [hxa, hxb, hnotlt] at heq
      omega
    · have hamem : a ∈ xs := by
        rcases List.mem_cons.mp ha with h | h
        · exact absurd h.symm hxa
        · exact h
      have hpos := jsIndexOf_nonneg_of_mem hamem
      have hnotlt : ¬ jsIndexOf xs a < 0 := not_lt.mpr hpos
      simp [hxa, hxb, hnotlt] at heq
      omega
    · have hamem : a ∈ xs := by
        rcases List.mem_cons.mp ha with h | h
        · exact absurd h.symm hxa
        · exact h
      have hbmem : b ∈ xs := by
        rcases List.mem_cons.mp hb with h | h
        · exact absurd h.symm hxb
        · exact h
      have hpa := jsIndexOf_nonneg_of_mem hamem
      have hpb := jsIndexOf_nonneg_of_mem hbmem
      have hna : ¬ jsIndexOf xs a < 0 := not_lt.mpr hpa
      have hnb : ¬ jsIndexOf xs b < 0 := not_lt.mpr hpb
      simp [hxa, hxb, hna, hnb] at heq
      exact ih hnd.of_cons hamem hbmem (by omega)

/-- A duplicate-free recent-commits list is sorted by its own
JavaScript indexOf positions. -/
theorem pairwise_jsIndexOf_self {recent : List Nat} (hnd : recent.Nodup) :
    recent.Pairwise (fun a b => jsIndexOf recent a ≤ jsIndexOf recent b) := by
  induction recent with
  | nil => exact List.Pairwise.nil
  | cons x xs ih =>
    have hx : x ∉ xs := (List.nodup_cons.mp hnd).1
    refine List.Pairwise.cons ?_ ?_
    · intro y hy
      have hyx : ¬ x = y := fun hc => hx (hc ▸ hy)
      have hymem := jsIndexOf_nonneg_of_mem hy
      have hny : ¬ jsIndexOf xs y < 0 := not_lt.mpr hymem
      unfold jsIndexOf
      simp [hyx, hny]
      omega
    · refine List.Pairwise.imp_of_mem ?_ (ih hnd.of_cons)
      intro a b ha hb hab
      have hxa : ¬ x = a := fun hc => hx (hc ▸ ha)
      have hxb : ¬ x = b := fun hc => hx (hc ▸ hb)
      have hna : ¬ jsIndexOf xs a < 0 := not_lt.mpr (jsIndexOf_nonneg_of_mem ha)
      have hnb : ¬ jsIndexOf xs b < 0 := not_lt.mpr (jsIndexOf_nonneg_of_mem hb)
      show jsIndexOf (x :: xs) a ≤ jsIndexOf (x :: xs) b
      unfold jsIndexOf
      simp [hxa, hxb, hna, hnb]
      omega

theorem selLe_total (recent : List Nat) : ∀ a b, selLe recent a b || selLe recent b a := by
  intro a b
  unfold selLe
  rcases Int.le_total (jsIndexOf recent a) (jsIndexOf recent b) with h | h <;> simp [h]

theorem selLe_trans (recent : List Nat) :
    ∀ a b c, selLe recent a b = true → selLe recent b c = true → selLe recent a c = true := by
  intro a b c hab hbc
  unfold selLe at *
  simp only [decide_eq_true_eq] at *
  exact le_trans hab hbc

theorem latestCheck_eq_true_iff : ∀ {l r : List Nat}, r.length ≤ l.length →
    (latestCheck l r = true ↔ l = r)
  | [], [], _ => by simp [latestCheck]
  | [], b :: bs, h => by simp at h
  | a :: as, [], _ => by simp [latestCheck]
  | a :: as, b :: bs, h => by
    unfold latestCheck
    rw [Bool.and_eq_true, beq_iff_eq, latestCheck_eq_true_iff (by simpa using h)]
    constructor
    · rintro ⟨rfl, rfl⟩; rfl
    · intro hc
      injection hc with h1 h2
      exact ⟨h1, h2⟩

/-- The classifier's pure check succeeds exactly when the selection is a
permutation of the recent-commits list. -/
theorem classifyPure_eq_true_iff {commits recent : List Nat}
    (hrnd : recent.Nodup) (hlen : recent.length ≤ commits.length) :
    classifyPure commits recent = true ↔ commits.Perm recent := by
  unfold classifyPure
  have hperm := stableSort_perm (selLe recent) commits
  have hlen' : recent.length ≤ (stableSort (selLe recent) commits).length := by
    rw [hperm.length_eq]; exact hlen
  rw [latestCheck_eq_true_iff hlen']
  constructor
  · intro h
    exact h ▸ hperm.symm
  · intro h
    refine eq_of_perm_pairwise (hperm.trans h)
      (stableSort_pairwise (selLe_total recent) (selLe_trans recent) commits)
      ?_ ?_
    · refine List.Pairwise.imp_of_mem ?_ (pairwise_jsIndexOf_self hrnd)
      intro a b _ _ hab
      unfold selLe
      simpa using hab
    · intro a ha b hb hab hba
      unfold selLe at hab hba
      simp only [decide_eq_true_eq] at hab hba
      exact jsIndexOf_inj hrnd ha hb (le_antisymm hab hba)

/-- C9 (pure form): the classifier's result is a function of the
selection as a set -- any permutation of the selected identities yields
the same boolean. -/
theorem classifyPure_perm_invariant {l₁ l₂ recent : List Nat}
    (hperm : l₁.Perm l₂) (hrnd : recent.Nodup) (hlen : recent.length ≤ l₁.length) :
    classifyPure l₁ recent = classifyPure l₂ recent := by
  rw [Bool.eq_iff_iff, classifyPure_eq_true_iff hrnd hlen,
    classifyPure_eq_true_iff hrnd (by rw [← hperm.length_eq]; exact hlen)]
  exact ⟨fun h => hperm.symm.trans h, fun h => hperm.trans h⟩

theorem doLog_some_inv {env : Env} {n : Nat} {s : St} {lg : List Commit} {s1 : St}
    (h : doLog env (some n) s = .ok (lg, s1)) :
    lg = (curBranch s).take n ∧ s1 = issue s (.logRead (some n)) := by
  unfold doLog gwGuard at h
  by_cases hf : env.failOn (.logRead (some n)) = true
  · simp [hf] at h
  · simp [hf] at h
    exact ⟨h.1.symm, h.2.symm⟩

/-- C9: `areCommitsLatestAndConsecutive` returns the same result for any
permutation of the selected identities: classification is a function of
the selection as a set, not of the order the identities are listed in. -/
theorem classifier_order_independent (env : Env) (l₁ l₂ : List Nat) (s : St)
    (hperm : l₁.Perm l₂) (hseqnd : ((curBranch s).map (·.hash)).Nodup) :
    areCommitsLatestAndConsecutive env l₁ s = areCommitsLatestAndConsecutive env l₂ s := by
  unfold areCommitsLatestAndConsecutive
  rw [show l₂.length = l₁.length from hperm.length_eq.symm]
  cases hl : doLog env (some l₁.length) s with
  | error ep => rfl
  | ok p =>
    obtain ⟨lg, s1⟩ := p
    obtain ⟨rfl, rfl⟩ := doLog_some_inv hl
    simp only [bindR_ok]
    have hrnd : (((curBranch s).take l₁.length).map (·.hash)).Nodup := by
      rw [List.map_take]
      exact (List.take_sublist _ _).nodup hseqnd
    have hlen : (((curBranch s).take l₁.length).map (·.hash)).length ≤ l₁.length := by
      rw [List.length_map, List.length_take]
      omega
    rw [classifyPure_perm_invariant hperm hrnd hlen]

/-- A "gap" in a selection relative to a newest-first sequence: an
unselected commit strictly between two selected commits, or an
unselected commit newer than every selected commit. -/
def HasGap (sel seq : List Nat) : Prop :=
  (∃ i j k, ∃ (hi : i < seq.length) (hj : j < seq.length) (hk : k < seq.length),
    i < j ∧ j < k ∧ seq.get ⟨i, hi⟩ ∈ sel ∧ seq.get ⟨j, hj⟩ ∉ sel ∧ seq.get ⟨k, hk⟩ ∈ sel) ∨
  (∃ j, ∃ (hj : j < seq.length), seq.get ⟨j, hj⟩ ∉ sel ∧
    ∀ i (hi : i < seq.length), seq.get ⟨i, hi⟩ ∈ sel → j < i)

/-- In a duplicate-free sequence, a selection that is (as a set) the
`|sel|` most recent commits has exactly the positions below `|sel|`
selected. -/
theorem perm_take_mem_iff_lt {sel seq : List Nat} (hnd : seq.Nodup)
    (hp : sel.Perm (seq.take sel.length)) :
    ∀ m (hm : m < seq.length), (seq.get ⟨m, hm⟩ ∈ sel ↔ m < sel.length) := by
  intro m hm
  constructor
  · intro hmem
    have : seq.get ⟨m, hm⟩ ∈ seq.take sel.length := hp.mem_iff.mp hmem
    obtain ⟨⟨p, hp2⟩, hget⟩ := List.mem_iff_get.mp this
    have hplen : p < seq.length := by
      have := hp2
      simp only [List.length_take] at this
      omega
    have hgg : seq.get ⟨p, hplen⟩ = seq.get ⟨m, hm⟩ := by
      rw [← hget]
      have hpl : p < sel.length := by
        have := hp2
        simp only [List.length_take] at this
        omega
      exact (List.get_take seq hplen hpl).symm ▸ rfl
    have hpm : p = m := congrArg Fin.val ((hnd.get_inj_iff).mp hgg)
    have hpl : p < sel.length := by
      have := hp2
      simp only [List.length_take] at this
      omega
    omega
  · intro hlt
    have hmt : m < (seq.take sel.length).length := by
      simp only [List.length_take]
      omega
    have : (seq.take sel.length).get ⟨m, hmt⟩ ∈ seq.take sel.length := List.get_mem _ _ _
    have hgeq : (seq.take sel.length).get ⟨m, hmt⟩ = seq.get ⟨m, hm⟩ :=
      (List.get_take seq hm hlt).symm
    rw [hgeq] at this
    exact hp.mem_iff.mpr this

/-- A selection with a gap is never, as a set, the `|sel|` most recent
commits. -/
theorem hasGap_not_perm_take {sel seq : List Nat} (hnd : seq.Nodup)
    (hsub : ∀ a ∈ sel, a ∈ seq) (hne : sel ≠ [])
    (hgap : HasGap sel seq) : ¬ sel.Perm (seq.take sel.length) := by
  intro hp
  have hiff := perm_take_mem_iff_lt hnd hp
  rcases hgap with ⟨i, j, k, hi, hj, hk, hij, hjk, hisel, hjsel, hksel⟩ |
    ⟨j, hj, hjsel, hall⟩
  · have hklt : k < sel.length := (hiff k hk).mp hksel
    have hjlt : j < sel.length := by omega
    exact hjsel ((hiff j hj).mpr hjlt)
  · obtain ⟨a, ha⟩ := List.exists_mem_of_ne_nil sel hne
    obtain ⟨⟨i, hi⟩, hget⟩ := List.mem_iff_get.mp (hsub a ha)
    have hisel : seq.get ⟨i, hi⟩ ∈ sel := hget.symm ▸ ha
    have hilt : i < sel.length := (hiff i hi).mp hisel
    have hji : j < i := hall i hi hisel
    have hjlt : j < sel.length := by omega
    exact hjsel ((hiff j hj).mpr hjlt)

/-! ### No-createBranch trace property (fast-path characterisation) -/

def NoCreate (s : St) {α : Type} (r : GRes α) : Prop :=
  ∃ l, (stOf r).trace = s.trace ++ l ∧ ∀ x ∈ l, ∀ nm, x.2 ≠ GOp.createBranch nm

theorem noCreate_bindR {α β : Type} {s : St} {x : GRes α} {g : α → St → GRes β}
    (hx : NoCreate s x) (hg : ∀ a s₁, x = .ok (a, s₁) → NoCreate s₁ (g a s₁)) :
    NoCreate s (bindR x g) := by
  cases x with
  | error e => exact hx
  | ok p =>
    obtain ⟨a, s₁⟩ := p
    obtain ⟨l₁, hl₁, hP₁⟩ := hx
    obtain ⟨l₂, hl₂, hP₂⟩ := hg a s₁ rfl
    refine ⟨l₁ ++ l₂, ?_, ?_⟩
    · simp only [bindR_ok]
      rw [hl₂]
      simp only [stOf] at hl₁
      rw [hl₁, List.append_assoc]
    · intro x hx
      rcases List.mem_append.mp hx with h | h
      · exact hP₁ x h
      · exact hP₂ x h

theorem noCreate_gwGuard {α : Type} {env : Env} {op : GOp} {s : St} {k : St → GRes α}
    (hop : ∀ nm, op ≠ GOp.createBranch nm)
    (hk : ∀ s1, (stOf (k s1)).trace = s1.trace) :
    NoCreate s (gwGuard env op s k) := by
  unfold gwGuard
  by_cases hf : env.failOn op = true
  · simp [hf]
    exact ⟨[(s.current, op)], by simp, by simpa using hop⟩
  · simp [hf]
    refine ⟨[(s.current, op)], ?_, by simpa using hop⟩
    rw [hk (issue s op)]
    simp

theorem noCreate_doStatus {env : Env} {s : St} : NoCreate s (doStatus env s) := by
  unfold doStatus
  exact noCreate_gwGuard (by simp) (fun s1 => rfl)

theorem noCreate_doLog {env : Env} {mc : Option Nat} {s : St} : NoCreate s (doLog env mc s) := by
  unfold doLog
  refine noCreate_gwGuard (by simp) (fun s1 => ?_)
  cases mc <;> simp [stOf]

theorem noCreate_doStashSave {env : Env} {s : St} : NoCreate s (doStashSave env s) := by
  unfold doStashSave
  exact noCreate_gwGuard (by simp) (fun s1 => rfl)

theorem noCreate_doStashPop {env : Env} {s : St} : NoCreate s (doStashPop env s) := by
  unfold doStashPop
  refine noCreate_gwGuard (by simp) (fun s1 => ?_)
  cases hs : s1.stashSt <;> simp [hs, stOf]

theorem noCreate_doReset {env : Env} {hard : Bool} {base : Nat} {s : St} :
    NoCreate s (doReset env hard base s) := by
  unfold doReset
  refine noCreate_gwGuard (by cases hard <;> simp) (fun s1 => ?_)
  cases hl : List.lookup base s1.parents with
  | none => simp [hl, stOf]
  | some po =>
    cases po with
    | none => simp [hl, stOf]
    | some p =>
      by_cases he : ((curBranch s1).dropWhile (fun c => c.hash != p)).isEmpty
      · simp [hl, he, stOf]
      · cases hard <;> simp [hl, he, stOf]

theorem noCreate_doCommit {env : Env} {msg : String} {s : St} :
    NoCreate s (doCommit env msg s) := by
  unfold doCommit
  refine noCreate_gwGuard (by simp) (fun s1 => ?_)
  cases hl : s1.staged <;> simp [hl, stOf]

theorem noCreate_fast {env : Env} {commits : List Nat} {msg : String} {s : St} :
    NoCreate s (squashLatestCommits env commits msg s) := by
  unfold squashLatestCommits
  exact noCreate_bindR noCreate_doReset (fun _ s₁ _ => noCreate_doCommit)

theorem noCreate_issue_prepend {s : St} {op : GOp} (hop : ∀ nm, op ≠ GOp.createBranch nm)
    {α : Type} {r : GRes α} (h : NoCreate (issue s op) r) : NoCreate s r := by
  obtain ⟨l, hl, hP⟩ := h
  refine ⟨(s.current, op) :: l, ?_, ?_⟩
  · rw [hl]
    simp
  · intro x hx
    rcases List.mem_cons.mp hx with rfl | hx
    · exact hop
    · exact hP x hx

theorem doStatus_inv {env : Env} {s : St} {d : Nat} {s1 : St}
    (h : doStatus env s = .ok (d, s1)) : d = s.dirty ∧ s1 = issue s .statusRead := by
  unfold doStatus gwGuard at h
  by_cases hf : env.failOn .statusRead = true
  · simp [hf] at h
  · simp [hf] at h
    exact ⟨h.1.symm, h.2.symm⟩

theorem doStashSave_inv {env : Env} {s : St} {u : Unit} {s2 : St}
    (h : doStashSave env s = .ok (u, s2)) :
    s2 = { issue s .stashSave with stashSt := s.dirty :: s.stashSt, dirty := 0 } := by
  unfold doStashSave gwGuard at h
  by_cases hf : env.failOn .stashSave = true
  · simp [hf] at h
  · simp [hf] at h
    rw [← h]
    exact rfl

/-- Under a failure-free environment, the classifier read succeeds and
returns the positional check on the `n` most recent commits. -/
theorem classifier_ok {env : Env} {commits : List Nat} {s : St}
    (hLog : env.failOn (.logRead (some commits.length)) = false) :
    areCommitsLatestAndConsecutive env commits s =
      .ok (classifyPure commits (((curBranch s).take commits.length).map (·.hash)),
        issue s (.logRead (some commits.length))) := by
  unfold areCommitsLatestAndConsecutive doLog gwGuard
  simp [hLog]

theorem squashCommits_state (env : Env) (commits : List Nat) (msg : String) (d : Bool)
    (s : St) : (squashCommits env commits msg d s).2 = stOf (squashBody env commits msg d s) := by
  unfold squashCommits
  cases h : squashBody env commits msg d s with
  | ok p => obtain ⟨r, s'⟩ := p; rfl
  | error p => obtain ⟨e, s'⟩ := p; rfl

theorem stOf_doCheckoutNew_trace {env : Env} {b : String} {s : St} :
    (stOf (doCheckoutNew env b s)).trace = s.trace ++ [(s.current, GOp.createBranch b)] := by
  unfold doCheckoutNew gwGuard
  by_cases hf : env.failOn (.createBranch b) = true
  · simp [hf]
  · by_cases hb : b ∈ branchNames s
    · simp [hf, hb]
    · simp [hf, hb]

/-- A run of the general path always issues the create-branch operation
for the temporary branch, provided the environment does not fail the two
preceding reads. -/
theorem general_path_issues_createBranch (env : Env) (commits : List Nat) (msg : String)
    (s : St) (hEnv : ∀ op, env.failOn op = false) :
    ∃ bn nm, (bn, GOp.createBranch nm) ∈
      (stOf (squashNonConsecutiveCommits env commits msg s)).trace.drop s.trace.length := by
  obtain ⟨s1, h1, hc1, ht1⟩ := @doBranchQuery_ok env s (hEnv _)
  obtain ⟨s2, h2, hc2, ht2⟩ := @doLog_none_ok env s1 (hEnv _)
  show ∃ bn nm, (bn, GOp.createBranch nm) ∈
    (stOf (bindR (doBranchQuery env s) fun currentBranch s1 =>
      bindR (doLog env none s1) fun logAll s2 =>
      bindR (doCheckoutNew env (tempName s1) s2) fun _ s3 =>
      match (bindR (gpReconstruct env commits msg s3) fun newCommit s4 =>
          gpTransplant env currentBranch (tempName s1) ((commits.getLast?).getD 0) newCommit
            ((logAll.takeWhile (fun c => c.hash != commits.headD 0)).map
              (fun c => (c.hash, c.message))) s4) with
      | .ok r => .ok r
      | .error (e, sE) => gpCatch env currentBranch (tempName s1) e sE)).trace.drop
        s.trace.length
  rw [h1]
  simp only [bindR_ok]
  rw [h2]
  simp only [bindR_ok]
  have hcntr := @stOf_doCheckoutNew_trace env (tempName s1) s2
  have hpre : s2.trace = s.trace ++ [(s.current, GOp.branchQuery), (s1.current, GOp.logRead none)] := by
    rw [ht2, ht1]
    simp
  cases hcn : doCheckoutNew env (tempName s1) s2 with
  | error ep =>
    obtain ⟨e, sE⟩ := ep
    rw [hcn] at hcntr
    simp only [stOf, bindR_error] at hcntr ⊢
    refine ⟨s2.current, tempName s1, ?_⟩
    rw [hcntr, hpre, List.append_assoc, List.drop_left]
    simp
  | ok p =>
    obtain ⟨u, s3⟩ := p
    rw [hcn] at hcntr
    simp only [stOf, bindR_ok] at hcntr ⊢
    have hbody : GuardSafe s3 (bindR (gpReconstruct env commits msg s3) fun newCommit s4 =>
        gpTransplant env s.current (tempName s1) ((commits.getLast?).getD 0) newCommit
          (((curBranch s1).takeWhile (fun c => c.hash != commits.headD 0)).map
            (fun c => (c.hash, c.message))) s4) :=
      guardSafe_bindR guardSafe_gpReconstruct (fun _ s₄ _ => guardSafe_gpTransplant)
    cases hb : (bindR (gpReconstruct env commits msg s3) fun newCommit s4 =>
        gpTransplant env s.current (tempName s1) ((commits.getLast?).getD 0) newCommit
          (((curBranch s1).takeWhile (fun c => c.hash != commits.headD 0)).map
            (fun c => (c.hash, c.message))) s4) with
    | ok r =>
      rw [hb] at hbody
      obtain ⟨l1, hl1⟩ := trExt_of_guardSafe hbody
      refine ⟨s2.current, tempName s1, ?_⟩
      show (s2.current, GOp.createBranch (tempName s1)) ∈
        ((stOf (Except.ok r : GRes Unit)).trace).drop s.trace.length
      rw [hl1, hcntr, hpre]
      simp only [List.append_assoc]
      rw [List.drop_left]
      simp
    | error ep =>
      obtain ⟨e2, sE⟩ := ep
      rw [hb] at hbody
      obtain ⟨l1, hl1⟩ := trExt_of_guardSafe hbody
      simp only [stOf] at hl1
      obtain ⟨l2, hl2⟩ := @gpCatch_traceExt env s.current
        (tempName s1) e2 sE
      refine ⟨s2.current, tempName s1, ?_⟩
      show (s2.current, GOp.createBranch (tempName s1)) ∈
        ((stOf (gpCatch env s.current (tempName s1) e2 sE)).trace).drop s.trace.length
      rw [hl2, hl1, hcntr, hpre]
      simp only [List.append_assoc]
      rw [List.drop_left]
      simp

theorem noCreate_pure {α : Type} {s : St} {a : α} : NoCreate s (Except.ok (a, s) : GRes α) :=
  ⟨[], by simp [stOf], by simp⟩

/-- When the positional check succeeds, the non-dry-run squash body issues
no create-branch operation: it takes the fast path throughout. -/
theorem fast_squash_noCreate (env : Env) (commits : List Nat) (msg : String) (s : St)
    (hEnv : ∀ op, env.failOn op = false)
    (hval : classifyPure commits (((curBranch s).take commits.length).map (·.hash)) = true) :
    NoCreate s (squashBody env commits msg false s) := by
  show NoCreate s (
    bindR (doStatus env s) fun dirty0 s1 =>
    bindR (if dirty0 > 0 then doStashSave env s1 else .ok ((), s1)) fun _ s2 =>
    bindR (areCommitsLatestAndConsecutive env commits s2) fun useSimpleApproach s3 =>
    bindR (if useSimpleApproach then squashLatestCommits env commits msg s3
           else squashNonConsecutiveCommits env commits msg s3) fun _ s4 =>
    bindR (if dirty0 > 0 then doStashPop env s4 else .ok ((), s4)) fun _ s5 =>
    .ok (none, s5))
  refine noCreate_bindR noCreate_doStatus (fun d0 s1 hx => ?_)
  obtain ⟨hd0, hs1⟩ := doStatus_inv hx
  subst hd0
  subst hs1
  refine noCreate_bindR ?_ (fun u2 s2 hx2 => ?_)
  · by_cases hd : s.dirty > 0
    · rw [if_pos hd]
      exact noCreate_doStashSave
    · rw [if_neg hd]
      exact noCreate_pure
  · have hcur2 : curBranch s2 = curBranch s := by
      by_cases hd : s.dirty > 0
      · rw [if_pos hd] at hx2
        have h2 := doStashSave_inv hx2
        subst h2
        rfl
      · rw [if_neg hd] at hx2
        injection hx2 with h
        injection h with h1 h2
        rw [← h2]
        rfl
    rw [classifier_ok (hEnv _)]
    simp only [bindR_ok]
    rw [hcur2, hval, if_pos rfl]
    refine @noCreate_issue_prepend _ (GOp.logRead (some commits.length)) (by simp) _ _ ?_
    refine noCreate_bindR noCreate_fast (fun _ s4 _ => ?_)
    refine noCreate_bindR ?_ (fun _ s5 _ => noCreate_pure)
    by_cases hd : s.dirty > 0
    · rw [if_pos hd]
      exact noCreate_doStashPop
    · rw [if_neg hd]
      exact noCreate_pure

theorem fast_path_no_createBranch (env : Env) (commits : List Nat) (msg : String) (s : St)
    (hEnv : ∀ op, env.failOn op = false)
    (hval : classifyPure commits (((curBranch s).take commits.length).map (·.hash)) = true) :
    ∀ x ∈ (squashCommits env commits msg false s).2.trace.drop s.trace.length,
      ∀ nm, x.2 ≠ GOp.createBranch nm := by
  obtain ⟨l, hl, hP⟩ := fast_squash_noCreate env commits msg s hEnv hval
  intro x hx
  rw [squashCommits_state, hl, List.drop_left] at hx
  exact hP x hx

theorem mem_drop_of_le {α : Type} {x : α} {l : List α} {m k : Nat} (hk : k ≤ m)
    (h : x ∈ List.drop m l) : x ∈ List.drop k l := by
  have heq : List.drop m l = List.drop (m - k) (List.drop k l) := by
    rw [List.drop_drop]
    congr 1
    omega
  rw [heq] at h
  exact List.mem_of_mem_drop h

theorem mem_drop_append {α : Type} {x : α} {l l2 : List α} {k : Nat}
    (h : x ∈ List.drop k l) : x ∈ List.drop k (l ++ l2) := by
  rcases le_or_lt k l.length with hle | hlt
  · rw [List.drop_append_of_le_length hle]
    exact List.mem_append_left _ h
  · rw [List.drop_eq_nil_of_le hlt.le] at h
    cases h

theorem general_tail_creates (env : Env) (commits : List Nat) (msg : String) (sPre : St)
    (dirty0 : Nat) (hEnv : ∀ op, env.failOn op = false) (k : Nat)
    (hk : k ≤ sPre.trace.length) :
    ∃ bn nm, (bn, GOp.createBranch nm) ∈
      (stOf (bindR (squashNonConsecutiveCommits env commits msg sPre) fun _ s4 =>
        bindR (if dirty0 > 0 then doStashPop env s4 else .ok ((), s4)) fun _ s5 =>
        (.ok (none, s5) : GRes (Option DryRunReport)))).trace.drop k := by
  obtain ⟨bn, nm, hmem⟩ := general_path_issues_createBranch env commits msg sPre hEnv
  refine ⟨bn, nm, ?_⟩
  cases hg : squashNonConsecutiveCommits env commits msg sPre with
  | error ep =>
    obtain ⟨e, sE⟩ := ep
    rw [hg] at hmem
    simp only [stOf] at hmem
    simp only [stOf, bindR_error]
    exact mem_drop_of_le hk hmem
  | ok p =>
    obtain ⟨u, s4⟩ := p
    rw [hg] at hmem
    simp only [stOf] at hmem
    simp only [bindR_ok]
    have htail : TrExt s4 (bindR (if dirty0 > 0 then doStashPop env s4 else .ok ((), s4))
        fun _ s5 => (.ok (none, s5) : GRes (Option DryRunReport))) := by
      refine trExt_bindR ?_ (fun _ s5 _ => ⟨[], by simp [stOf]⟩)
      by_cases hd : dirty0 > 0
      · rw [if_pos hd]
        exact trExt_doStashPop
      · rw [if_neg hd]
        exact ⟨[], by simp [stOf]⟩
    obtain ⟨lt, hlt⟩ := htail
    rw [hlt]
    exact mem_drop_append (mem_drop_of_le hk hmem)

/-- When the positional check fails, the non-dry-run squash body reaches the
general path and issues the temporary create-branch operation. -/
theorem general_squash_creates (env : Env) (commits : List Nat) (msg : String) (s : St)
    (hEnv : ∀ op, env.failOn op = false)
    (hval : classifyPure commits (((curBranch s).take commits.length).map (·.hash)) = false) :
    ∃ bn nm, (bn, GOp.createBranch nm) ∈
      (squashCommits env commits msg false s).2.trace.drop s.trace.length := by
  rw [squashCommits_state]
  show ∃ bn nm, (bn, GOp.createBranch nm) ∈
    (stOf (bindR (doStatus env s) fun dirty0 s1 =>
      bindR (if dirty0 > 0 then doStashSave env s1 else .ok ((), s1)) fun _ s2 =>
      bindR (areCommitsLatestAndConsecutive env commits s2) fun useSimpleApproach s3 =>
      bindR (if useSimpleApproach then squashLatestCommits env commits msg s3
             else squashNonConsecutiveCommits env commits msg s3) fun _ s4 =>
      bindR (if dirty0 > 0 then doStashPop env s4 else .ok ((), s4)) fun _ s5 =>
      .ok (none, s5))).trace.drop s.trace.length
  obtain ⟨s1, hstat, htr1, hst1, hd1, hc1, hb1⟩ := @doStatus_ok env s (hEnv _)
  rw [hstat]
  simp only [bindR_ok]
  by_cases hd : s.dirty > 0
  · rw [if_pos hd]
    obtain ⟨s2, hsv, htr2, hst2, hc2, hb2⟩ := @doStashSave_ok env s1 (hEnv _)
    rw [hsv]
    simp only [bindR_ok]
    have hcur : curBranch s2 = curBranch s := by
      unfold curBranch getBranch
      rw [hb2, hc2, hb1, hc1]
    rw [classifier_ok (hEnv _)]
    simp only [bindR_ok]
    rw [hcur, hval, if_neg (by simp)]
    refine general_tail_creates env commits msg _ s.dirty hEnv s.trace.length ?_
    show s.trace.length ≤ (issue s2 (GOp.logRead (some commits.length))).trace.length
    simp only [issue, htr2, htr1]
    simp
  · rw [if_neg hd]
    simp only [bindR_ok]
    have hcur : curBranch s1 = curBranch s := by
      unfold curBranch getBranch
      rw [hb1, hc1]
    rw [classifier_ok (hEnv _)]
    simp only [bindR_ok]
    rw [hcur, hval, if_neg (by simp)]
    refine general_tail_creates env commits msg _ s.dirty hEnv s.trace.length ?_
    show s.trace.length ≤ (issue s1 (GOp.logRead (some commits.length))).trace.length
    simp only [issue, htr1]
    simp

/-- C3: a selection that is, as a set, exactly the `|selection|` most
recent commits makes the classifier return true and routes the run down
the fast path (no temporary branch is ever created); a selection with a
gap — an unselected commit strictly between two selected ones, or an
unselected commit newer than every selected one — makes the classifier
return false and routes the run down the general path, which creates the
temporary branch. -/
theorem classifier_selects_path (env : Env) (commits : List Nat) (msg : String) (s : St)
    (hEnv : ∀ op, env.failOn op = false)
    (hseqnd : (((curBranch s).map (·.hash))).Nodup) :
    (commits.Perm ((((curBranch s).map (·.hash))).take commits.length) →
      classifyPure commits (((curBranch s).take commits.length).map (·.hash)) = true ∧
      ∀ x ∈ (squashCommits env commits msg false s).2.trace.drop s.trace.length,
        ∀ nm, x.2 ≠ GOp.createBranch nm) ∧
    (HasGap commits ((curBranch s).map (·.hash)) →
     (∀ a ∈ commits, a ∈ (curBranch s).map (·.hash)) →
     commits ≠ [] →
      classifyPure commits (((curBranch s).take commits.length).map (·.hash)) = false ∧
      ∃ bn nm, (bn, GOp.createBranch nm) ∈
        (squashCommits env commits msg false s).2.trace.drop s.trace.length) := by
  have hrnd : (((curBranch s).take commits.length).map (·.hash)).Nodup := by
    rw [List.map_take]
    exact hseqnd.sublist (List.take_sublist _ _)
  have hlen : (((curBranch s).take commits.length).map (·.hash)).length ≤ commits.length := by
    simp only [List.length_map, List.length_take]
    omega
  constructor
  · intro hA
    have hval : classifyPure commits (((curBranch s).take commits.length).map (·.hash)) = true := by
      rw [classifyPure_eq_true_iff hrnd hlen, List.map_take]
      exact hA
    exact ⟨hval, fast_path_no_createBranch env commits msg s hEnv hval⟩
  · intro hgap hsub hne
    have hnp : ¬ commits.Perm ((((curBranch s).map (·.hash))).take commits.length) :=
      hasGap_not_perm_take hseqnd hsub hne hgap
    have hval : classifyPure commits (((curBranch s).take commits.length).map (·.hash)) = false := by
      cases hcl : classifyPure commits (((curBranch s).take commits.length).map (·.hash)) with
      | false => rfl
      | true =>
        have h2 := (classifyPure_eq_true_iff hrnd hlen).mp hcl
        rw [List.map_take] at h2
        exact absurd h2 hnp
    exact ⟨hval, general_squash_creates env commits msg s hEnv hval⟩

theorem classifier_selects_path_witness :
    (∀ op, envOK.failOn op = false) ∧ (((curBranch demoSt).map (·.hash))).Nodup ∧
    (classifyPure [4, 2] (((curBranch demoSt).take ([4, 2] : List Nat).length).map (·.hash)) = false ∧
      ∃ bn nm, (bn, GOp.createBranch nm) ∈
        (squashCommits envOK [4, 2] "m" false demoSt).2.trace.drop demoSt.trace.length) :=
  ⟨fun _ => rfl, by decide,
    (classifier_selects_path envOK [4, 2] "m" demoSt (fun _ => rfl) (by decide)).2
      (Or.inl ⟨1, 2, 3, by decide, by decide, by decide, by decide, by decide,
        by decide, by decide, by decide⟩)
      (by decide) (by decide)⟩

theorem classifier_order_independent_witness :
    ([4, 5] : List Nat).Perm [5, 4] ∧ (((curBranch demoSt).map (·.hash))).Nodup ∧
    areCommitsLatestAndConsecutive envOK [4, 5] demoSt =
      areCommitsLatestAndConsecutive envOK [5, 4] demoSt :=
  ⟨by decide, by decide,
    classifier_order_independent envOK [4, 5] [5, 4] demoSt (by decide) (by decide)⟩

/-! ### C4: cherry-pick order in the general path -/

/-- The hashes cherry-picked while `bn` was the checked-out branch, in
issue order, read off a trace. -/
def cherryPicksOn (bn : String) (tr : List (String × GOp)) : List Nat :=
  tr.filterMap (fun e => match e with
    | (b, GOp.cherryPick h) => if b = bn then some h else none
    | _ => none)

def isOkB {α : Type} : GRes α → Bool
  | .ok _ => true
  | .error _ => false

theorem gwGuard_ok_tc {α : Type} {env : Env} {op : GOp} {s : St} {k : St → GRes α}
    {u : α} {s' : St}
    (hk : ∀ s1 a s2, k s1 = .ok (a, s2) → s2.trace = s1.trace ∧ s2.current = s1.current)
    (h : gwGuard env op s k = .ok (u, s')) :
    s'.trace = s.trace ++ [(s.current, op)] ∧ s'.current = s.current := by
  unfold gwGuard at h
  cases hf : env.failOn op with
  | true => rw [hf] at h; simp at h
  | false =>
    rw [hf] at h
    simp only [Bool.false_eq_true, if_false] at h
    obtain ⟨ht, hc⟩ := hk _ u s' h
    exact ⟨by rw [ht]; rfl, by rw [hc]; rfl⟩

theorem doReset_ok_tc {env : Env} {hard : Bool} {base : Nat} {s : St} {u : Unit} {s' : St}
    (h : doReset env hard base s = .ok (u, s')) :
    s'.trace = s.trace ++ [(s.current, if hard then GOp.hardReset base else GOp.softReset base)] ∧
    s'.current = s.current := by
  refine gwGuard_ok_tc ?_ h
  intro s1 a s2 hk
  cases hl : List.lookup base s1.parents with
  | none =>
    simp only [hl] at hk
    cases hk
  | some po =>
    cases po with
    | none =>
      simp only [hl] at hk
      cases hk
    | some p =>
      simp only [hl] at hk
      split at hk
      · cases hk
      · split at hk
        · injection hk with h1
          injection h1 with ha hs
          rw [← hs]
          exact ⟨rfl, rfl⟩
        · injection hk with h1
          injection h1 with ha hs
          rw [← hs]
          exact ⟨rfl, rfl⟩

theorem doCommit_ok_tc {env : Env} {msg : String} {s : St} {u : Unit} {s' : St}
    (h : doCommit env msg s = .ok (u, s')) :
    s'.trace = s.trace ++ [(s.current, GOp.commitOp msg)] ∧ s'.current = s.current := by
  refine gwGuard_ok_tc ?_ h
  intro s1 a s2 hk
  split at hk
  · cases hk
  · injection hk with h1
    injection h1 with ha hs
    rw [← hs]
    exact ⟨rfl, rfl⟩

theorem doRevparse_ok_tc {env : Env} {s : St} {v : Nat} {s' : St}
    (h : doRevparse env s = .ok (v, s')) :
    s'.trace = s.trace ++ [(s.current, GOp.revparse)] ∧ s'.current = s.current := by
  refine gwGuard_ok_tc ?_ h
  intro s1 a s2 hk
  split at hk
  · cases hk
  · injection hk with h1
    injection h1 with ha hs
    rw [← hs]
    exact ⟨rfl, rfl⟩

theorem doCherryPick_ok_tc {env : Env} {hsh : Nat} {s : St} {u : Unit} {s' : St}
    (h : doCherryPick env hsh s = .ok (u, s')) :
    s'.trace = s.trace ++ [(s.current, GOp.cherryPick hsh)] ∧ s'.current = s.current := by
  refine gwGuard_ok_tc ?_ h
  intro s1 a s2 hk
  split at hk
  · cases hk
  · injection hk with h1
    injection h1 with ha hs
    rw [← hs]
    exact ⟨rfl, rfl⟩

theorem doDeleteBranch_ok_tc {env : Env} {b : String} {s : St} {u : Unit} {s' : St}
    (h : doDeleteBranch env b s = .ok (u, s')) :
    s'.trace = s.trace ++ [(s.current, GOp.deleteBranch b)] ∧ s'.current = s.current := by
  refine gwGuard_ok_tc ?_ h
  intro s1 a s2 hk
  split at hk
  · cases hk
  · split at hk
    · injection hk with h1
      injection h1 with ha hs
      rw [← hs]
      exact ⟨rfl, rfl⟩
    · cases hk

theorem doCheckout_ok_tc {env : Env} {b : String} {s : St} {u : Unit} {s' : St}
    (h : doCheckout env b s = .ok (u, s')) :
    s'.trace = s.trace ++ [(s.current, GOp.checkoutBranch b)] ∧ s'.current = b := by
  obtain ⟨-, hs⟩ := doCheckout_inv h
  subst hs
  exact ⟨rfl, rfl⟩

theorem cherryPickAll_ok_tc {env : Env} : ∀ {L : List Nat} {s : St} {u : Unit} {s' : St},
    cherryPickAll env L s = .ok (u, s') →
    s'.trace = s.trace ++ L.map (fun h => (s.current, GOp.cherryPick h)) ∧
    s'.current = s.current := by
  intro L
  induction L with
  | nil =>
    intro s u s' h
    injection h with h1
    injection h1 with ha hs
    rw [← hs]
    exact ⟨by simp, rfl⟩
  | cons hd tl ih =>
    intro s u s' h
    simp only [cherryPickAll] at h
    cases hcp : doCherryPick env hd s with
    | error ep =>
      rw [hcp] at h
      simp only [bindR_error] at h
      cases h
    | ok p =>
      obtain ⟨a1, s1⟩ := p
      rw [hcp] at h
      simp only [bindR_ok] at h
      obtain ⟨ht1, hc1⟩ := doCherryPick_ok_tc hcp
      obtain ⟨ht2, hc2⟩ := ih h
      refine ⟨?_, hc2.trans hc1⟩
    
      rw [ht2, ht1, hc1]
      simp

theorem gpReconstruct_ok_tc {env : Env} {commits : List Nat} {msg : String} {s : St}
    {v : Nat} {s' : St} (h : gpReconstruct env commits msg s = .ok (v, s')) :
    s'.trace = s.trace ++
      ([(s.current, GOp.hardReset ((commits.getLast?).getD 0))] ++
       commits.reverse.map (fun hsh => (s.current, GOp.cherryPick hsh)) ++
       [(s.current, GOp.softReset ((commits.getLast?).getD 0)),
        (s.current, GOp.commitOp msg), (s.current, GOp.revparse)]) ∧
    s'.current = s.current := by
  simp only [gpReconstruct] at h
  cases h1 : doReset env true ((commits.getLast?).getD 0) s with
  | error ep => rw [h1] at h; simp only [bindR_error] at h; cases h
  | ok p1 =>
    obtain ⟨u1, s1⟩ := p1
    rw [h1] at h
    simp only [bindR_ok] at h
    cases h2 : cherryPickAll env commits.reverse s1 with
    | error ep => rw [h2] at h; simp only [bindR_error] at h; cases h
    | ok p2 =>
      obtain ⟨u2, s2⟩ := p2
      rw [h2] at h
      simp only [bindR_ok] at h
      cases h3 : doReset env false ((commits.getLast?).getD 0) s2 with
      | error ep => rw [h3] at h; simp only [bindR_error] at h; cases h
      | ok p3 =>
        obtain ⟨u3, s3⟩ := p3
        rw [h3] at h
        simp only [bindR_ok] at h
        cases h4 : doCommit env msg s3 with
        | error ep => rw [h4] at h; simp only [bindR_error] at h; cases h
        | ok p4 =>
          obtain ⟨u4, s4⟩ := p4
          rw [h4] at h
          simp only [bindR_ok] at h
          obtain ⟨t1, c1⟩ := doReset_ok_tc h1
          obtain ⟨t2, c2⟩ := cherryPickAll_ok_tc h2
          obtain ⟨t3, c3⟩ := doReset_ok_tc h3
          obtain ⟨t4, c4⟩ := doCommit_ok_tc h4
          obtain ⟨t5, c5⟩ := doRevparse_ok_tc h
          refine ⟨?_, (((c5.trans c4).trans c3).trans c2).trans c1⟩
          rw [t5, t4, t3, t2, t1]
          rw [c4.trans ((c3.trans c2).trans c1), (c3.trans c2).trans c1, c2.trans c1, c1]
          simp

theorem gpTransplant_ok_tc {env : Env} {cb tb : String} {oldest newC : Nat}
    {later : List (Nat × String)} {s : St} {u : Unit} {s' : St}
    (h : gpTransplant env cb tb oldest newC later s = .ok (u, s')) :
    s'.trace = s.trace ++
      ([(s.current, GOp.checkoutBranch cb), (cb, GOp.hardReset oldest),
        (cb, GOp.cherryPick newC)] ++
       (later.reverse.map (·.1)).map (fun hsh => (cb, GOp.cherryPick hsh)) ++
       [(cb, GOp.deleteBranch tb)]) ∧
    s'.current = cb := by
  simp only [gpTransplant] at h
  cases h1 : doCheckout env cb s with
  | error ep => rw [h1] at h; simp only [bindR_error] at h; cases h
  | ok p1 =>
    obtain ⟨u1, s1⟩ := p1
    rw [h1] at h
    simp only [bindR_ok] at h
    cases h2 : doReset env true oldest s1 with
    | error ep => rw [h2] at h; simp only [bindR_error] at h; cases h
    | ok p2 =>
      obtain ⟨u2, s2⟩ := p2
      rw [h2] at h
      simp only [bindR_ok] at h
      cases h3 : doCherryPick env newC s2 with
      | error ep => rw [h3] at h; simp only [bindR_error] at h; cases h
      | ok p3 =>
        obtain ⟨u3, s3⟩ := p3
        rw [h3] at h
        simp only [bindR_ok] at h
        cases h4 : cherryPickAll env (later.reverse.map (·.1)) s3 with
        | error ep => rw [h4] at h; simp only [bindR_error] at h; cases h
        | ok p4 =>
          obtain ⟨u4, s4⟩ := p4
          rw [h4] at h
          simp only [bindR_ok] at h
          obtain ⟨t1, c1⟩ := doCheckout_ok_tc h1
          obtain ⟨t2, c2⟩ := doReset_ok_tc h2
          obtain ⟨t3, c3⟩ := doCherryPick_ok_tc h3
          obtain ⟨t4, c4⟩ := cherryPickAll_ok_tc h4
          obtain ⟨t5, c5⟩ := doDeleteBranch_ok_tc h
          refine ⟨?_, (((c5.trans c4).trans c3).trans c2).trans c1⟩
          rw [t5, t4, t3, t2, t1]
          rw [c4.trans ((c3.trans c2).trans c1), (c3.trans c2).trans c1, c2.trans c1, c1]
          simp

theorem gpCatch_ne_ok {env : Env} {cb tb : String} {e : GitErr} {s : St} {r : Unit × St} :
    gpCatch env cb tb e s ≠ .ok r := by
  intro h
  unfold gpCatch at h
  split at h
  · cases h
  · split at h
    · cases h
    · cases h

theorem doLog_none_inv {env : Env} {s : St} {lg : List Commit} {s1 : St}
    (h : doLog env none s = .ok (lg, s1)) :
    lg = curBranch s ∧ s1 = issue s (.logRead none) := by
  unfold doLog gwGuard at h
  cases hf : env.failOn (GOp.logRead none) with
  | true => rw [hf] at h; simp at h
  | false =>
    rw [hf] at h
    simp only [Bool.false_eq_true, if_false] at h
    injection h with h1
    injection h1 with ha hs
    exact ⟨ha.symm, hs.symm⟩

theorem filterMap_const_none {α β : Type} (l : List α) :
    l.filterMap (fun _ => (none : Option β)) = [] := by
  induction l with
  | nil => rfl
  | cons a t ih => simp [List.filterMap_cons, ih]

theorem filterMap_some_hash (l : List Commit) :
    l.filterMap (fun c => some c.hash) = l.map (·.hash) := by
  induction l with
  | nil => rfl
  | cons a t ih => simp [List.filterMap_cons, ih]

/-- A successful general-path run cherry-picks exactly the selected
commits, reversed, while the temporary branch is checked out, and
exactly the squashed commit followed by the reversed later commits
while the original branch is checked out. -/
theorem general_run_cherry_picks (env : Env) (commits : List Nat) (msg : String) (s : St)
    (u : Unit) (s' : St) (hTempNe : tempName s ≠ s.current)
    (hrun : squashNonConsecutiveCommits env commits msg s = .ok (u, s')) :
    ∃ newC,
      cherryPicksOn (tempName s) (s'.trace.drop s.trace.length) = commits.reverse ∧
      cherryPicksOn s.current (s'.trace.drop s.trace.length) =
        newC :: (((curBranch s).takeWhile (fun c => c.hash != commits.headD 0)).map
          (·.hash)).reverse := by
  have hne1 : s.current ≠ tempName s := Ne.symm hTempNe
  simp only [squashNonConsecutiveCommits] at hrun
  cases h1 : doBranchQuery env s with
  | error ep => rw [h1] at hrun; simp only [bindR_error] at hrun; cases hrun
  | ok p1 =>
    obtain ⟨cb, s1⟩ := p1
    obtain ⟨hcb, hs1⟩ := doBranchQuery_inv h1
    subst hcb
    rw [h1] at hrun
    simp only [bindR_ok] at hrun
    cases h2 : doLog env none s1 with
    | error ep => rw [h2] at hrun; simp only [bindR_error] at hrun; cases hrun
    | ok p2 =>
      obtain ⟨lg, s2⟩ := p2
      obtain ⟨hlg, hs2⟩ := doLog_none_inv h2
      rw [h2] at hrun
      simp only [bindR_ok] at hrun
      cases h3 : doCheckoutNew env (tempName s1) s2 with
      | error ep => rw [h3] at hrun; simp only [bindR_error] at hrun; cases hrun
      | ok p3 =>
        obtain ⟨u3, s3⟩ := p3
        obtain ⟨hnm, hs3⟩ := doCheckoutNew_inv h3
        rw [h3] at hrun
        simp only [bindR_ok] at hrun
        cases hb : (bindR (gpReconstruct env commits msg s3) fun newCommit s4 =>
            gpTransplant env s.current (tempName s1) ((commits.getLast?).getD 0) newCommit
              ((lg.takeWhile (fun c => c.hash != commits.headD 0)).map
                (fun c => (c.hash, c.message))) s4) with
        | error ep =>
          obtain ⟨e, sE⟩ := ep
          rw [hb] at hrun
          replace hrun : gpCatch env s.current (tempName s1) e sE = .ok (u, s') := hrun
          exact absurd hrun gpCatch_ne_ok
        | ok r =>
          rw [hb] at hrun
          replace hrun : (Except.ok r : GRes Unit) = .ok (u, s') := hrun
          injection hrun with hr
          subst hr
          cases hrc : gpReconstruct env commits msg s3 with
          | error ep => rw [hrc] at hb; simp only [bindR_error] at hb; cases hb
          | ok prc =>
            obtain ⟨nc, s4⟩ := prc
            rw [hrc] at hb
            simp only [bindR_ok] at hb
            obtain ⟨tR, cR⟩ := gpReconstruct_ok_tc hrc
            obtain ⟨tT, cT⟩ := gpTransplant_ok_tc hb
            have ht3 : s3.trace = s2.trace ++ [(s2.current, GOp.createBranch (tempName s1))] := by
              rw [hs3]; rfl
            have hc3 : s3.current = tempName s1 := by rw [hs3]
            have ht2 : s2.trace = s1.trace ++ [(s1.current, GOp.logRead none)] := by
              rw [hs2]; rfl
            have hc2 : s2.current = s1.current := by rw [hs2]; rfl
            have ht1 : s1.trace = s.trace ++ [(s.current, GOp.branchQuery)] := by
              rw [hs1]; rfl
            have hc1 : s1.current = s.current := by rw [hs1]; rfl
            have htn1 : tempName s1 = tempName s := by rw [hs1]; rfl
            have hdrop : s'.trace.drop s.trace.length =
                [(s.current, GOp.branchQuery), (s.current, GOp.logRead none),
                 (s.current, GOp.createBranch (tempName s))] ++
                ([(tempName s, GOp.hardReset ((commits.getLast?).getD 0))] ++
                 commits.reverse.map (fun hsh => (tempName s, GOp.cherryPick hsh)) ++
                 [(tempName s, GOp.softReset ((commits.getLast?).getD 0)),
                  (tempName s, GOp.commitOp msg), (tempName s, GOp.revparse)]) ++
                ([(tempName s, GOp.checkoutBranch s.current),
                  (s.current, GOp.hardReset ((commits.getLast?).getD 0)),
                  (s.current, GOp.cherryPick nc)] ++
                 (((lg.takeWhile (fun c => c.hash != commits.headD 0)).map
                    (fun c => (c.hash, c.message))).reverse.map (·.1)).map
                   (fun hsh => (s.current, GOp.cherryPick hsh)) ++
                 [(s.current, GOp.deleteBranch (tempName s))]) := by
              rw [tT, tR, cR, hc3, ht3, ht2, hc2, ht1, hc1, htn1]
              simp [List.append_assoc]
            have hcur1 : curBranch s1 = curBranch s := by rw [hs1]; rfl
            refine ⟨nc, ?_, ?_⟩
            · rw [hdrop]
              simp [cherryPicksOn, hne1, List.filterMap_append, List.filterMap_map, Function.comp_def]
            · rw [hdrop, hlg]
              simp [cherryPicksOn, hTempNe, List.filterMap_append, List.filterMap_map,
                List.map_reverse, List.map_map, Function.comp_def, hcur1,
                filterMap_const_none, filterMap_some_hash]

/-- C4: the selected commits — given as the set `sel` and listed by the
program in newest-first log order, so the listing is independent of the
order in which they were chosen — are cherry-picked onto the temporary
branch in oldest-to-newest chronological order (the reverse of the
newest-first listing), and the preserved later commits are cherry-picked
back onto the original branch in oldest-to-newest order, the reverse of
their newest-to-oldest retrieval order. -/
theorem cherry_pick_order (env : Env) (sel : List Nat) (msg : String) (s : St)
    (u : Unit) (s' : St) (hTempNe : tempName s ≠ s.current)
    (hrun : squashNonConsecutiveCommits env
      (((curBranch s).map (·.hash)).filter (fun h => sel.contains h)) msg s = .ok (u, s')) :
    ∃ newC,
      cherryPicksOn (tempName s) (s'.trace.drop s.trace.length) =
        (((curBranch s).map (·.hash)).filter (fun h => sel.contains h)).reverse ∧
      cherryPicksOn s.current (s'.trace.drop s.trace.length) =
        newC :: (((curBranch s).takeWhile (fun c =>
          c.hash != (((curBranch s).map (·.hash)).filter
            (fun h => sel.contains h)).headD 0)).map (·.hash)).reverse :=
  general_run_cherry_picks env _ msg s u s' hTempNe hrun

theorem cherry_pick_order_witness :
    tempName demoSt ≠ demoSt.current ∧
    ∃ (u : Unit) (s' : St),
      squashNonConsecutiveCommits envOK
        (((curBranch demoSt).map (·.hash)).filter (fun h => List.contains [2, 4] h))
        "m" demoSt = .ok (u, s') ∧
      ∃ newC,
        cherryPicksOn (tempName demoSt) (s'.trace.drop demoSt.trace.length) =
          (((curBranch demoSt).map (·.hash)).filter (fun h => List.contains [2, 4] h)).reverse ∧
        cherryPicksOn demoSt.current (s'.trace.drop demoSt.trace.length) =
          newC :: (((curBranch demoSt).takeWhile (fun c =>
            c.hash != (((curBranch demoSt).map (·.hash)).filter
              (fun h => List.contains [2, 4] h)).headD 0)).map (·.hash)).reverse := by
  refine ⟨by decide, ?_⟩
  have hok : isOkB (squashNonConsecutiveCommits envOK
      (((curBranch demoSt).map (·.hash)).filter (fun h => List.contains [2, 4] h))
      "m" demoSt) = true := by decide
  cases hrun : squashNonConsecutiveCommits envOK
      (((curBranch demoSt).map (·.hash)).filter (fun h => List.contains [2, 4] h))
      "m" demoSt with
  | error ep =>
    rw [hrun] at hok
    simp [isOkB] at hok
  | ok p =>
    obtain ⟨u, s'⟩ := p
    exact ⟨u, s', rfl,
      cherry_pick_order envOK [2, 4] "m" demoSt u s' (by decide) hrun⟩
